import Mathlib

/-!
Verification development for the mammal-database generation scripts
(`build_mammals_csv.py`, `AddSoundFromWikipedia.py`, `FillDataFromPantheria.py`,
`AddPopulationGrpSizeFromPantheria.py`).

The Python code is shallowly embedded: strings are Lean `String`s (lists of
characters), Python `Decimal`/`float` values are exact rationals `ℚ`,
dictionaries are association lists, and the network collaborators are passed
in as function parameters.  All definitions are executable.
-/

/-! ### Python string primitives -/

/-- The ASCII whitespace characters recognised by Python's `str.strip` /
`str.split` (restricted to the ASCII range, which is all the data uses). -/
def pySpace (c : Char) : Bool :=
  c == ' ' || c == '\t' || c == '\n' || c == '\r' || c == '\x0b' || c == '\x0c'

/-- ASCII uppercase/lowercase letter pairs, the range on which Python's
`str.lower` acts for the taxonomic names processed here. -/
def lowerPairs : List (Char × Char) :=
  [('A','a'), ('B','b'), ('C','c'), ('D','d'), ('E','e'), ('F','f'), ('G','g'),
   ('H','h'), ('I','i'), ('J','j'), ('K','k'), ('L','l'), ('M','m'), ('N','n'),
   ('O','o'), ('P','p'), ('Q','q'), ('R','r'), ('S','s'), ('T','t'), ('U','u'),
   ('V','v'), ('W','w'), ('X','x'), ('Y','y'), ('Z','z')]

/-- Python `str.lower` on one character (ASCII). -/
def toLowerC (c : Char) : Char :=
  ((lowerPairs.find? (fun p => p.1 == c)).map (fun p => p.2)).getD c

/-- Python `str.strip()`: drop leading and trailing whitespace. -/
def pyStrip (l : List Char) : List Char :=
  ((l.dropWhile pySpace).reverse.dropWhile pySpace).reverse

/-- Maximal runs of characters not satisfying `sep`, empty runs discarded.
With `sep := pySpace` this is Python's `str.split()` (no argument); with the
non-alphanumeric separator it is `re.findall(r"[a-z0-9]+", ...)` /
`re.split(r"[^a-z0-9]+", ...)` with empty tokens filtered out. -/
def splitRuns (sep : Char → Bool) : List Char → List (List Char)
  | [] => []
  | c :: cs =>
    if sep c then splitRuns sep cs
    else (c :: cs.takeWhile (fun d => !sep d)) :: splitRuns sep (cs.dropWhile (fun d => !sep d))
termination_by l => l.length
decreasing_by
  · simp
  · simp only [List.length_cons]
    exact Nat.lt_succ_of_le (List.dropWhile_sublist _).length_le

/-- Python `str.split()` (whitespace splitting, empty pieces dropped). -/
def pySplit (l : List Char) : List (List Char) :=
  splitRuns pySpace l

/-- Python `" ".join(ws)`. -/
def joinSpace : List (List Char) → List Char
  | [] => []
  | [w] => w
  | w :: ws => w ++ ' ' :: joinSpace ws

/-- `normalize_name` from `FillDataFromPantheria.py` /
`AddPopulationGrpSizeFromPantheria.py`:
`" ".join((value or "").strip().lower().split())`. -/
def normalize_name (s : String) : String :=
  ⟨joinSpace (pySplit ((pyStrip s.data).map toLowerC))⟩

/-- `to_binomial` from `FillDataFromPantheria.py`: first two
whitespace-delimited tokens joined by one space when the name has at least two
tokens, otherwise the name unchanged. -/
def to_binomial (s : String) : String :=
  match pySplit s.data with
  | p0 :: p1 :: _ => ⟨p0 ++ ' ' :: p1⟩
  | _ => s

/-- Lowercase-alphanumeric test, the character class `[a-z0-9]`. -/
def lowAlnum (c : Char) : Bool :=
  (decide ('a' ≤ c) && decide (c ≤ 'z')) || (decide ('0' ≤ c) && decide (c ≤ '9'))

/-- `tokenize` from `AddSoundFromWikipedia.py`:
`re.findall(r"[a-z0-9]+", value.lower())`, i.e. the maximal alphanumeric runs
of the lowercased text.  `is_map_like_image_name_or_url` uses the equivalent
`re.split(r"[^a-z0-9]+", text)` with empty tokens dropped. -/
def tokenizeL (l : List Char) : List (List Char) :=
  splitRuns (fun c => !lowAlnum c) (l.map toLowerC)

/-- Value of one hexadecimal digit, as used by URL percent-decoding. -/
def hexVal? (c : Char) : Option Nat :=
  if decide ('0' ≤ c) && decide (c ≤ '9') then some (c.toNat - 48)
  else if decide ('a' ≤ c) && decide (c ≤ 'f') then some (c.toNat - 87)
  else if decide ('A' ≤ c) && decide (c ≤ 'F') then some (c.toNat - 55)
  else none

/-- `urllib.parse.unquote`, modelled for single-byte percent escapes: a `%`
followed by two hex digits decodes to the character with that code, anything
else is copied through unchanged. -/
def pyUnquote : List Char → List Char
  | [] => []
  | '%' :: a :: b :: rest =>
    match hexVal? a, hexVal? b with
    | some x, some y => Char.ofNat (16 * x + y) :: pyUnquote rest
    | _, _ => '%' :: pyUnquote (a :: b :: rest)
  | c :: rest => c :: pyUnquote rest
termination_by l => l.length
decreasing_by all_goals simp_arith

/-- `b` begins with `a` (Python `str.startswith` on character lists). -/
def leadsWith : List Char → List Char → Bool
  | [], _ => true
  | _ :: _, [] => false
  | a :: as, b :: bs => a == b && leadsWith as bs

/-- `hay` ends with `ned` (Python `str.endswith`). -/
def endsWithL (ned hay : List Char) : Bool :=
  leadsWith ned.reverse hay.reverse

/-- `ned` occurs as a contiguous substring of `hay` (Python `in`). -/
def isSubstringL (ned hay : List Char) : Bool :=
  (List.range (hay.length + 1)).any (fun i => leadsWith ned (hay.drop i))

/-- Python `str.rstrip(c)` for a single strip character. -/
def rstripChar (l : List Char) (c : Char) : List Char :=
  (l.reverse.dropWhile (fun d => d == c)).reverse

/-! ### Python number parsing and formatting -/

/-- ASCII decimal digit test. -/
def pyDigit (c : Char) : Bool :=
  decide ('0' ≤ c) && decide (c ≤ '9')

/-- Numeric value of a digit string (most significant digit first). -/
def digitsToNat (ds : List Char) : Nat :=
  ds.foldl (fun a c => 10 * a + (c.toNat - 48)) 0

/-- Python `float(s)` on finite decimal literals
`[sign] digits [. digits] [(e|E) [sign] digits]`, evaluated exactly in `ℚ`;
anything else fails (models the `ValueError` path). -/
def parseFloat? (s0 : List Char) : Option ℚ :=
  let sgn : ℚ := if s0.head? = some '-' then -1 else 1
  let s := if s0.head? = some '-' || s0.head? = some '+' then s0.tail else s0
  let ip := s.takeWhile pyDigit
  let r1 := s.dropWhile pyDigit
  let fp := if r1.head? = some '.' then r1.tail.takeWhile pyDigit else []
  let r2 := if r1.head? = some '.' then r1.tail.dropWhile pyDigit else r1
  if ip.length + fp.length = 0 then none
  else
    let mant : ℚ := (digitsToNat ip : ℚ) + (digitsToNat fp : ℚ) / (10 : ℚ) ^ fp.length
    match r2 with
    | [] => some (sgn * mant)
    | c :: t =>
      if c == 'e' || c == 'E' then
        let esgn : ℤ := if t.head? = some '-' then -1 else 1
        let es := if t.head? = some '-' || t.head? = some '+' then t.tail else t
        if es ≠ [] ∧ es.all pyDigit then
          some (sgn * mant * (10 : ℚ) ^ (esgn * (digitsToNat es : ℤ)))
        else none
      else none

/-- Round half to even (the rounding used by Python's `round` and by
fixed-precision float formatting, evaluated on the exact rational). -/
def rne (q : ℚ) : ℤ :=
  if q - ⌊q⌋ < 1/2 then ⌊q⌋
  else if 1/2 < q - ⌊q⌋ then ⌊q⌋ + 1
  else if ⌊q⌋ % 2 = 0 then ⌊q⌋ else ⌊q⌋ + 1

/-- The character of one decimal digit. -/
def digitChar (n : Nat) : Char :=
  Char.ofNat (48 + n)

/-- Fuel-driven worker for `natDigits`; the fuel is always sufficient because
`n / 10 < n` for `n ≥ 10`. -/
def natDigitsAux : Nat → Nat → List Char
  | 0, _ => []
  | fuel + 1, n =>
    if n < 10 then [digitChar n]
    else natDigitsAux fuel (n / 10) ++ [digitChar (n % 10)]

/-- Decimal digit string of a natural number (`str(n)`). -/
def natDigits (n : Nat) : List Char :=
  natDigitsAux (n + 1) n

/-- Left-pad a digit string with zeros to width `d`. -/
def leftPadZeros (d : Nat) (ds : List Char) : List Char :=
  List.replicate (d - ds.length) '0' ++ ds

/-- Python `f"{v:.{d}f}"` on the exact rational `v`: round `v * 10^d` half to
even and print with exactly `d` digits after the decimal point (no point when
`d = 0`). -/
def fmtFixed (v : ℚ) (d : Nat) : List Char :=
  let n := rne (v * 10 ^ d)
  let sgn : List Char := if n < 0 then ['-'] else []
  let m := n.natAbs
  if d = 0 then sgn ++ natDigits m
  else sgn ++ natDigits (m / 10 ^ d) ++ '.' :: leftPadZeros d (natDigits (m % 10 ^ d))

/-- `format_number` from `FillDataFromPantheria.py`: fixed-precision format,
then `rstrip("0").rstrip(".")` when the text contains a decimal point. -/
def format_number (value : ℚ) (decimals : Nat) : String :=
  let text := fmtFixed value decimals
  if '.' ∈ text then ⟨rstripChar (rstripChar text '0') '.'⟩ else ⟨text⟩

/-- Decimal string of an integer (`str(int(n))`). -/
def intStr (n : ℤ) : List Char :=
  if n < 0 then '-' :: natDigits n.natAbs else natDigits n.natAbs

/-! ### Rows, dictionaries, and the PanTHERIA index
(`FillDataFromPantheria.py`, `AddPopulationGrpSizeFromPantheria.py`) -/

/-- A CSV row as produced by `csv.DictReader`: an ordered association list of
column name to cell text. -/
abbrev Row := List (String × String)

/-- Python `dict.get(k)` on an association list (first matching key). -/
def alistGet? {α : Type} (l : List (String × α)) (k : String) : Option α :=
  (l.find? (fun p => p.1 == k)).map (fun p => p.2)

/-- Python `dict.get(k, d)`. -/
def rowGetD (r : Row) (k d : String) : String :=
  (alistGet? r k).getD d

/-- Python `row[k] = v`: replace the value at an existing key in place,
otherwise append the key at the end. -/
def rowSet : Row → String → String → Row
  | [], k, v => [(k, v)]
  | p :: rest, k, v => if p.1 == k then (k, v) :: rest else p :: rowSet rest k v

/-- `MISSING_SENTINEL` (both PanTHERIA scripts). -/
def MISSING_SENTINEL : ℚ := -999

/-- `parse_pantheria_number`: `None`, empty/whitespace, unparseable, or
sentinel-range (`value <= -999.0`) fields all yield `None`. -/
def parse_pantheria_number (raw : Option String) : Option ℚ :=
  match raw with
  | none => none
  | some r0 =>
    let r := pyStrip r0.data
    if r = [] then none
    else
      match parseFloat? r with
      | none => none
      | some value => if value ≤ MISSING_SENTINEL then none else some value

/-- `PANTHERIA_TO_TARGET` (insertion order of the Python dict literal). -/
def PANTHERIA_TO_TARGET : List (String × String) :=
  [("5-1_AdultBodyMass_g", "mass_kg"),
   ("9-1_GestationLen_d", "gestation_days"),
   ("15-1_LitterSize", "litter_size"),
   ("17-1_MaxLongevity_m", "lifespan_yr")]

/-- `convert_trait` from `FillDataFromPantheria.py`. -/
def convert_trait (source_column : String) (value : Option ℚ) : Option String :=
  match value with
  | none => none
  | some v =>
    if source_column = "5-1_AdultBodyMass_g" then
      let mass_kg := v / 1000
      if mass_kg < 1 then some (format_number mass_kg 3)
      else some (format_number mass_kg 1)
    else if source_column = "9-1_GestationLen_d" then
      some (format_number v 1)
    else if source_column = "15-1_LitterSize" then
      if |v - (rne v : ℚ)| < 1 / 1000000000 then some ⟨intStr (rne v)⟩
      else some (format_number v 2)
    else if source_column = "17-1_MaxLongevity_m" then
      some (format_number (v / 12) 1)
    else none

/-- One step of `load_pantheria_index`: insert the row under its normalized
`MSW05_Binomial` key unless the key is empty or already present. -/
def insertPantheriaRow (idx : List (String × Row)) (row : Row) : List (String × Row) :=
  let key := normalize_name (rowGetD row "MSW05_Binomial" "")
  if key = "" then idx
  else
    match alistGet? idx key with
    | some _ => idx
    | none => idx ++ [(key, row)]

/-- `load_pantheria_index`: index the PanTHERIA rows by normalized binomial
name, first row per key winning. -/
def load_pantheria_index (rows : List Row) : List (String × Row) :=
  rows.foldl insertPantheriaRow []

/-- The two-key lookup of `fill_and_filter_mammals` /
`fill_population_group_size`: `index.get(normalize(name))`, then on a miss
`index.get(to_binomial(normalize(name)))`. -/
def match_pantheria (idx : List (String × Row)) (raw : String) : Option Row :=
  match alistGet? idx (normalize_name raw) with
  | some r => some r
  | none => alistGet? idx (to_binomial (normalize_name raw))

/-- The loop body of `fill_and_filter_mammals` for one mapped trait column:
write the converted value into the target column and bump `mapped_count`, or
keep the target column's existing value (defaulting to the empty cell). -/
def fillStep (prow : Row) (acc : Row × Nat) (pair : String × String) : Row × Nat :=
  match convert_trait pair.1 (parse_pantheria_number (alistGet? prow pair.1)) with
  | some converted => (rowSet acc.1 pair.2 converted, acc.2 + 1)
  | none => (rowSet acc.1 pair.2 (rowGetD acc.1 pair.2 ""), acc.2)

/-- The per-row body of `fill_and_filter_mammals`: fill the four mapped trait
columns from the matched PanTHERIA row and keep the row only when at least two
of them received a converted value. -/
def fill_row (idx : List (String × Row)) (row : Row) : Option Row :=
  match match_pantheria idx (rowGetD row "scientific_name" "") with
  | none => none
  | some prow =>
    let result := PANTHERIA_TO_TARGET.foldl (fillStep prow) (row, (0 : Nat))
    if result.2 < 2 then none else some result.1

/-- `fill_and_filter_mammals` restricted to its pure row transformation. -/
def fill_and_filter_mammals (idx : List (String × Row)) (rows : List Row) : List Row :=
  rows.filterMap (fill_row idx)

/-- The number of mapped trait columns that receive a converted value from a
PanTHERIA row. -/
def countFilled (prow : Row) : Nat :=
  (PANTHERIA_TO_TARGET.filter
    (fun pair => (convert_trait pair.1 (parse_pantheria_number (alistGet? prow pair.1))).isSome)).length

/-! ### Wikidata claim selection, unit conversion and trait aggregation
(`build_mammals_csv.py`) -/

def Q_KG : String := "Q11570"
def Q_G : String := "Q41803"
def Q_MG : String := "Q3241121"
def Q_TONNE : String := "Q191118"
def Q_LB : String := "Q100995"
def Q_DAY : String := "Q573"
def Q_WEEK : String := "Q23387"
def Q_MONTH : String := "Q5151"
def Q_YEAR : String := "Q577"
def Q_MPH : String := "Q211256"
def Q_KMH : String := "Q180154"
def Q_MPS : String := "Q182429"
def Q_KNOT : String := "Q128822"

def LB_TO_KG : ℚ := 0.45359237
def KMH_TO_MPH : ℚ := 0.621371192237334
def MPS_TO_MPH : ℚ := 2.2369362920544
def KNOT_TO_MPH : ℚ := 1.15077944802354

/-- A Wikidata statement for one property: its rank (`s.get("rank")`) and, when
the `mainsnak.datavalue` payload is a well-formed quantity, the parsed decimal
amount together with the unit QID (`None` for the unitless unit "1"); `none`
models a missing or non-numeric payload, which `extract_quantity_claims`
skips. -/
structure Statement where
  rank : Option String
  quantity : Option (ℚ × Option String)
deriving DecidableEq

/-- `pick_best_statements`: all preferred-rank statements if any, else all
normal-rank statements if any, else everything not deprecated. -/
def pick_best_statements (statements : List Statement) : List Statement :=
  let preferred := statements.filter (fun s => s.rank == some "preferred")
  if preferred ≠ [] then preferred
  else
    let normal := statements.filter (fun s => s.rank == some "normal")
    if normal ≠ [] then normal
    else statements.filter (fun s => !(s.rank == some "deprecated"))

/-- `extract_quantity_claims`: the parsed `(amount, unit)` pairs of the
authoritative statements, statements without a parseable quantity skipped. -/
def extract_quantity_claims (statements : List Statement) : List (ℚ × Option String) :=
  (pick_best_statements statements).filterMap (fun st => st.quantity)

/-- `convert_mass_to_kg`. -/
def convert_mass_to_kg (value : ℚ) (unit_qid : Option String) : Option ℚ :=
  if unit_qid = some Q_KG then some value
  else if unit_qid = some Q_G then some (value / 1000)
  else if unit_qid = some Q_MG then some (value / 1000000)
  else if unit_qid = some Q_TONNE then some (value * 1000)
  else if unit_qid = some Q_LB then some (value * LB_TO_KG)
  else none

/-- `convert_time_to_days`. -/
def convert_time_to_days (value : ℚ) (unit_qid : Option String) : Option ℚ :=
  if unit_qid = some Q_DAY then some value
  else if unit_qid = some Q_WEEK then some (value * 7)
  else if unit_qid = some Q_MONTH then some (value * 30.4375)
  else if unit_qid = some Q_YEAR then some (value * 365.25)
  else none

/-- `convert_time_to_years`. -/
def convert_time_to_years (value : ℚ) (unit_qid : Option String) : Option ℚ :=
  if unit_qid = some Q_YEAR then some value
  else
    match convert_time_to_days value unit_qid with
    | none => none
    | some days => some (days / 365.25)

/-- `convert_speed_to_mph`. -/
def convert_speed_to_mph (value : ℚ) (unit_qid : Option String) : Option ℚ :=
  if unit_qid = some Q_MPH then some value
  else if unit_qid = some Q_KMH then some (value * KMH_TO_MPH)
  else if unit_qid = some Q_MPS then some (value * MPS_TO_MPH)
  else if unit_qid = some Q_KNOT then some (value * KNOT_TO_MPH)
  else none

/-- `best_mass_kg`: the maximum of the successfully converted mass claims,
absent when none converts. -/
def best_mass_kg (statements : List Statement) : Option ℚ :=
  match (extract_quantity_claims statements).filterMap
      (fun p => convert_mass_to_kg p.1 p.2) with
  | [] => none
  | x :: xs => some (xs.foldl max x)

/-- `best_lifespan_yr`. -/
def best_lifespan_yr (statements : List Statement) : Option ℚ :=
  match (extract_quantity_claims statements).filterMap
      (fun p => convert_time_to_years p.1 p.2) with
  | [] => none
  | x :: xs => some (xs.foldl max x)

/-- `best_gestation_days`. -/
def best_gestation_days (statements : List Statement) : Option ℚ :=
  match (extract_quantity_claims statements).filterMap
      (fun p => convert_time_to_days p.1 p.2) with
  | [] => none
  | x :: xs => some (xs.foldl max x)

/-- `best_speed_mph`. -/
def best_speed_mph (statements : List Statement) : Option ℚ :=
  match (extract_quantity_claims statements).filterMap
      (fun p => convert_speed_to_mph p.1 p.2) with
  | [] => none
  | x :: xs => some (xs.foldl max x)

/-- The loop body of `best_litter_size`: litter size claims are often unitless,
so only claims with no unit update the running maximum. -/
def litterStep (best : Option ℚ) (p : ℚ × Option String) : Option ℚ :=
  match p.2 with
  | none =>
    match best with
    | none => some p.1
    | some b => some (max b p.1)
  | some _ => best

/-- The values of the unitless claims, the only ones `best_litter_size`
considers. -/
def litterVals (l : List (ℚ × Option String)) : List ℚ :=
  l.filterMap (fun p =>
    match p.2 with
    | none => some p.1
    | some _ => none)

/-- `best_litter_size`: running maximum over the unitless claims only. -/
def best_litter_size (statements : List Statement) : Option ℚ :=
  (extract_quantity_claims statements).foldl litterStep none

/-! ### Map-like image detection and lead-image fallback
(`build_mammals_csv.py`) -/

/-- `MAP_LIKE_IMAGE_KEYWORDS`. -/
def MAP_LIKE_IMAGE_KEYWORDS : List String :=
  ["area", "distribution", "locator", "location", "map", "range", "territory"]

/-- `is_map_like_image_name_or_url`: falsy input is never map-like; otherwise
percent-decode, lowercase, split into alphanumeric tokens, and test whether any
whole token is a map keyword. -/
def is_map_like_image_name_or_url (value : Option String) : Bool :=
  match value with
  | none => false
  | some v =>
    if v = "" then false
    else (tokenizeL (pyUnquote v.data)).any
      (fun t => MAP_LIKE_IMAGE_KEYWORDS.any (fun k => k.data == t))

/-- The result of `commons_metadata_for_filename` (the Commons retrieval
collaborator): `(commons_file_page_url, direct_image_url, license_short,
attribution)`, each possibly `None`. -/
structure CommonsMeta where
  filePage : Option String
  url : Option String
  license : Option String
  attribution : Option String
deriving DecidableEq

/-- Python truthiness of an optional string. -/
def truthy (o : Option String) : Bool :=
  match o with
  | none => false
  | some s => !(s == "")

/-- The alternate-image scan inside `build_csv`: walk the page's image
filenames in order, skip the primary filename and map-like filenames, and take
the first candidate that resolves to a truthy Commons url and file page whose
url is not itself map-like.  `resolve` stands for
`commons_metadata_for_filename`. -/
def find_image_fallback (resolve : String → CommonsMeta) (primary : String) :
    List String → Option CommonsMeta
  | [] => none
  | alt :: rest =>
    if alt = primary then find_image_fallback resolve primary rest
    else if is_map_like_image_name_or_url (some alt) then
      find_image_fallback resolve primary rest
    else
      let meta := resolve alt
      if truthy meta.url && truthy meta.filePage &&
          !is_map_like_image_name_or_url meta.url then some meta
      else find_image_fallback resolve primary rest

/-- The map-like branch of `build_csv` for a primary lead image that already
resolved to a truthy Commons url and file page: keep the primary when it is
not map-like; otherwise scan the page images for a fallback, and on
exhaustion report no image together with the `skipped_map_only` counter
increment (the boolean component). -/
def select_lead_image (resolve : String → CommonsMeta) (filename : String)
    (primaryMeta : CommonsMeta) (page_images : List String) :
    Option CommonsMeta × Bool :=
  if is_map_like_image_name_or_url (some filename) ||
      is_map_like_image_name_or_url primaryMeta.url then
    match find_image_fallback resolve filename page_images with
    | some meta => (some meta, false)
    | none => (none, true)
  else (some primaryMeta, false)

/-- A concrete Commons resolution table for exercising the fallback scan: only
the lion photo resolves, to a reusable non-map asset. -/
def demoResolve (f : String) : CommonsMeta :=
  if f = "Lion_photo.jpg" then
    ⟨some "commons_page", some "upload_Lion_photo.jpg", some "CC", some "A"⟩
  else ⟨none, none, none, none⟩

/-- The condition under which an alternate page image is accepted by
`find_image_fallback`. -/
def acceptableAlt (resolve : String → CommonsMeta) (primary alt : String) : Prop :=
  alt ≠ primary ∧ is_map_like_image_name_or_url (some alt) = false ∧
    truthy (resolve alt).url = true ∧ truthy (resolve alt).filePage = true ∧
    is_map_like_image_name_or_url (resolve alt).url = false

instance (resolve : String → CommonsMeta) (primary alt : String) :
    Decidable (acceptableAlt resolve primary alt) := by
  unfold acceptableAlt
  infer_instance

/-! ### Audio candidate scoring and selection (`AddSoundFromWikipedia.py`) -/

def AUDIO_EXTENSIONS : List String :=
  [".ogg", ".oga", ".opus", ".wav", ".flac", ".mp3", ".m4a", ".aac"]

def PREFERRED_AUDIO_KEYWORDS : List String :=
  ["call", "song", "sound", "voice", "vocal", "roar", "bark", "howl",
   "trumpet", "echolocation"]

def DEPRIORITIZE_AUDIO_KEYWORDS : List String :=
  ["pronunciation", "spoken", "wiki", "wikipedia", "ll-q"]

/-- `normalize_title`: percent-decode and strip, replace underscores by
spaces, drop a case-insensitive `File:` prefix, strip again. -/
def normalize_title (value : String) : String :=
  let clean := pyUnquote (pyStrip value.data)
  if clean = [] then ""
  else
    let underscored := clean.map (fun c => if c == '_' then ' ' else c)
    let dropped :=
      if leadsWith ['f', 'i', 'l', 'e', ':'] (underscored.map toLowerC) then
        underscored.drop 5
      else underscored
    ⟨pyStrip dropped⟩

/-- `is_audio_filename`: the normalized, lowercased title ends with one of the
audio extensions. -/
def is_audio_filename (file_title : String) : Bool :=
  let clean := (normalize_title file_title).data.map toLowerC
  AUDIO_EXTENSIONS.any (fun ext => endsWithL ext.data clean)

/-- `len(set(xs) & set(ys))` for token lists. -/
def interCard (xs ys : List (List Char)) : Nat :=
  (xs.dedup.filter (fun t => ys.contains t)).length

/-- `score_audio_candidate`. -/
def score_audio_candidate (file_title wiki_title scientific_name : String) : ℤ :=
  let name := (normalize_title file_title).data.map toLowerC
  (if PREFERRED_AUDIO_KEYWORDS.any (fun k => isSubstringL k.data name) then 5 else 0)
    + (if DEPRIORITIZE_AUDIO_KEYWORDS.any (fun k => isSubstringL k.data name) then -5 else 0)
    + (interCard (tokenizeL wiki_title.data) (tokenizeL name) : ℤ)
    + (interCard (tokenizeL scientific_name.data) (tokenizeL name) : ℤ)
    + (if [".ogg", ".oga", ".opus"].any (fun e => endsWithL e.data name) then 1 else 0)

/-- Stable insertion of `x` into a list sorted by non-increasing `f`: `x` goes
before the first strictly smaller element, after earlier equal elements. -/
def insertByScoreDesc (f : String → ℤ) (x : String) : List String → List String
  | [] => [x]
  | y :: ys => if f y ≤ f x then x :: y :: ys else y :: insertByScoreDesc f x ys

/-- Python's stable `list.sort(key=score, reverse=True)` as an insertion
sort. -/
def sortByScoreDesc (f : String → ℤ) : List String → List String
  | [] => []
  | x :: xs => insertByScoreDesc f x (sortByScoreDesc f xs)

/-- `best_audio_file_title`: keep the audio candidates, sort them stably by
descending score, return the first; the empty string means "no candidate
found". -/
def best_audio_file_title (file_titles : List String)
    (wiki_title scientific_name : String) : String :=
  match sortByScoreDesc (fun t => score_audio_candidate t wiki_title scientific_name)
      (file_titles.filter is_audio_filename) with
  | [] => ""
  | best :: _ => best

/-! ### The sound-column writer (`add_sound_column`) -/

/-- The per-row body of `add_sound_column`.  `getTitle` stands for
`wikipedia_title_from_row` and `getSound` for `find_sound_url_for_page`
applied to the row's Wikipedia title and scientific name (the network
collaborator; exceptions are already folded into an empty result). -/
def add_sound_row (getTitle : Row → String) (getSound : String → String → String)
    (column_name : String) (force_refresh : Bool) (row : Row) : Row :=
  let existing := pyStrip (rowGetD row column_name "").data
  if existing ≠ [] ∧ force_refresh = false then row
  else if getTitle row = "" then rowSet row column_name ""
  else rowSet row column_name (getSound (getTitle row) (rowGetD row "scientific_name" ""))

/-- `add_sound_column` restricted to its pure table transformation: the output
header appends the target column only when absent, and every input row is
written exactly once, in order, transformed by `add_sound_row`. -/
def add_sound_column (getTitle : Row → String) (getSound : String → String → String)
    (column_name : String) (force_refresh : Bool)
    (header : List String) (rows : List Row) : List String × List Row :=
  (if column_name ∈ header then header else header ++ [column_name],
   rows.map (add_sound_row getTitle getSound column_name force_refresh))

/-! ### Helper lemmas about the list primitives -/

theorem takeWhile_all {p : Char → Bool} {l : List Char} (h : ∀ a ∈ l, p a = true) :
    l.takeWhile p = l := by
  induction l with
  | nil => rfl
  | cons a t ih =>
    simp [List.takeWhile_cons, h a (by simp), ih (fun b hb => h b (by simp [hb]))]

theorem dropWhile_all {p : Char → Bool} {l : List Char} (h : ∀ a ∈ l, p a = true) :
    l.dropWhile p = [] := by
  induction l with
  | nil => rfl
  | cons a t ih =>
    simp [List.dropWhile_cons, h a (by simp), ih (fun b hb => h b (by simp [hb]))]

theorem takeWhile_append_break {p : Char → Bool} {b : Char} (hb : p b = false)
    {l1 : List Char} (l2 : List Char) (h : ∀ a ∈ l1, p a = true) :
    (l1 ++ b :: l2).takeWhile p = l1 := by
  induction l1 with
  | nil => simp [List.takeWhile_cons, hb]
  | cons a t ih =>
    simp [List.takeWhile_cons, h a (by simp), ih (fun c hc => h c (by simp [hc]))]

theorem dropWhile_append_break {p : Char → Bool} {b : Char} (hb : p b = false)
    {l1 : List Char} (l2 : List Char) (h : ∀ a ∈ l1, p a = true) :
    (l1 ++ b :: l2).dropWhile p = b :: l2 := by
  induction l1 with
  | nil => simp [List.dropWhile_cons, hb]
  | cons a t ih =>
    simp [List.dropWhile_cons, h a (by simp), ih (fun c hc => h c (by simp [hc]))]

theorem head_dropWhile_false {p : Char → Bool} {l : List Char} :
    ∀ {a : Char} {t : List Char}, l.dropWhile p = a :: t → p a = false := by
  induction l with
  | nil => intro a t h; cases h
  | cons c cs ih =>
    intro a t h
    by_cases hc : p c = true
    · rw [List.dropWhile_cons, if_pos hc] at h
      exact ih h
    · rw [List.dropWhile_cons, if_neg hc] at h
      cases h
      simpa using hc

theorem dropWhile_append_all {p : Char → Bool} {l1 : List Char} (l2 : List Char)
    (h : ∀ a ∈ l1, p a = true) :
    (l1 ++ l2).dropWhile p = l2.dropWhile p := by
  induction l1 with
  | nil => rfl
  | cons a t ih =>
    simp [List.dropWhile_cons, h a (by simp), ih (fun c hc => h c (by simp [hc]))]

theorem reverse_head_of_ne_nil {l : List Char} (h : l ≠ []) :
    ∃ c t, l.reverse = c :: t ∧ c ∈ l := by
  match hr : l.reverse with
  | [] => exact absurd (by simpa using congrArg List.reverse hr) h
  | c :: t =>
    refine ⟨c, t, rfl, ?_⟩
    have : c ∈ l.reverse := by rw [hr]; simp
    simpa using this

/-! ### Properties of `splitRuns` and `joinSpace` -/

theorem splitRuns_words {sep : Char → Bool} {l : List Char} :
    ∀ w ∈ splitRuns sep l, w ≠ [] ∧ ∀ c ∈ w, sep c = false := by
  induction l using splitRuns.induct sep with
  | case1 => simp [splitRuns]
  | case2 c cs hc ih =>
    rw [splitRuns, if_pos hc]
    exact ih
  | case3 c cs hc ih =>
    rw [splitRuns, if_neg hc]
    intro w hw
    rcases List.mem_cons.mp hw with hw1 | hw1
    · subst hw1
      refine ⟨by simp, ?_⟩
      intro d hd
      rcases List.mem_cons.mp hd with hd1 | hd1
      · subst hd1; simpa using hc
      · simpa using List.mem_takeWhile_imp hd1
    · exact ih w hw1

theorem splitRuns_chars {sep : Char → Bool} {l : List Char} :
    ∀ w ∈ splitRuns sep l, ∀ c ∈ w, c ∈ l := by
  induction l using splitRuns.induct sep with
  | case1 => simp [splitRuns]
  | case2 c cs hc ih =>
    rw [splitRuns, if_pos hc]
    intro w hw d hd
    exact List.mem_cons_of_mem c (ih w hw d hd)
  | case3 c cs hc ih =>
    rw [splitRuns, if_neg hc]
    intro w hw d hd
    rcases List.mem_cons.mp hw with hw1 | hw1
    · subst hw1
      rcases List.mem_cons.mp hd with hd1 | hd1
      · subst hd1; simp
      · exact List.mem_cons_of_mem c ((List.takeWhile_sublist _).mem hd1)
    · exact List.mem_cons_of_mem c ((List.dropWhile_sublist _).mem (ih w hw1 d hd))

theorem splitRuns_joinSpace {sep : Char → Bool} (hsp : sep ' ' = true) :
    ∀ {ws : List (List Char)},
      (∀ w ∈ ws, w ≠ [] ∧ ∀ c ∈ w, sep c = false) →
      splitRuns sep (joinSpace ws) = ws := by
  intro ws
  induction ws with
  | nil => intro _; simp [joinSpace, splitRuns]
  | cons w ws ih =>
    intro h
    obtain ⟨hw, hwc⟩ := h w (by simp)
    match w, hw with
    | c :: w', _ =>
      have hc : sep c = false := hwc c (by simp)
      have hw' : ∀ a ∈ w', sep a = false := fun a ha => hwc a (by simp [ha])
      match ws with
      | [] =>
        show splitRuns sep (c :: w') = [c :: w']
        rw [splitRuns, if_neg (by simp [hc])]
        rw [takeWhile_all (fun a ha => by simp [hw' a ha]),
          dropWhile_all (fun a ha => by simp [hw' a ha])]
        simp [splitRuns]
      | w2 :: ws' =>
        show splitRuns sep (c :: (w' ++ ' ' :: joinSpace (w2 :: ws'))) = _
        rw [splitRuns, if_neg (by simp [hc])]
        rw [takeWhile_append_break (by simp [hsp]) _ (fun a ha => by simp [hw' a ha]),
          dropWhile_append_break (by simp [hsp]) _ (fun a ha => by simp [hw' a ha])]
        have hsp2 : splitRuns sep (' ' :: joinSpace (w2 :: ws')) =
            splitRuns sep (joinSpace (w2 :: ws')) := by
          rw [splitRuns, if_pos hsp]
        rw [hsp2, ih (fun u hu => h u (by simp [hu]))]

theorem joinSpace_chars {ws : List (List Char)} :
    ∀ c ∈ joinSpace ws, c = ' ' ∨ ∃ w ∈ ws, c ∈ w := by
  induction ws with
  | nil => simp [joinSpace]
  | cons w ws ih =>
    match ws with
    | [] =>
      intro c hc
      exact Or.inr ⟨w, by simp, by simpa [joinSpace] using hc⟩
    | w2 :: ws' =>
      intro c hc
      have hc2 : c ∈ w ++ ' ' :: joinSpace (w2 :: ws') := hc
      rcases List.mem_append.mp hc2 with h1 | h1
      · exact Or.inr ⟨w, by simp, h1⟩
      · rcases List.mem_cons.mp h1 with h2 | h2
        · exact Or.inl h2
        · rcases ih c h2 with h3 | ⟨u, hu, hcu⟩
          · exact Or.inl h3
          · exact Or.inr ⟨u, by simp [hu], hcu⟩

theorem joinSpace_head {ws : List (List Char)}
    (h : ∀ w ∈ ws, w ≠ [] ∧ ∀ c ∈ w, pySpace c = false) :
    joinSpace ws = [] ∨ ∃ c t, joinSpace ws = c :: t ∧ pySpace c = false := by
  match ws with
  | [] => exact Or.inl rfl
  | w :: ws' =>
    obtain ⟨hw, hwc⟩ := h w (by simp)
    match w, hw with
    | c :: w', _ =>
      refine Or.inr ⟨c, ?_, ?_, hwc c (by simp)⟩
      · match ws' with
        | [] => exact w'
        | w2 :: ws'' => exact w' ++ ' ' :: joinSpace (w2 :: ws'')
      · match ws' with
        | [] => rfl
        | w2 :: ws'' => rfl

theorem joinSpace_getLast {ws : List (List Char)}
    (h : ∀ w ∈ ws, w ≠ [] ∧ ∀ c ∈ w, pySpace c = false) :
    joinSpace ws = [] ∨
      ∃ c t, (joinSpace ws).reverse = c :: t ∧ pySpace c = false := by
  induction ws with
  | nil => exact Or.inl rfl
  | cons w ws' ih =>
    obtain ⟨hw, hwc⟩ := h w (by simp)
    match ws' with
    | [] =>
      obtain ⟨c, t, hct, hc⟩ := reverse_head_of_ne_nil (l := w) hw
      exact Or.inr ⟨c, t, by simpa [joinSpace] using hct, hwc c hc⟩
    | w2 :: ws'' =>
      rcases ih (fun u hu => h u (by simp [hu])) with h1 | ⟨c, t, hct, hc⟩
      · have hne : w2 ≠ [] := (h w2 (by simp)).1
        match ws'' with
        | [] => exact absurd h1 (by simpa [joinSpace] using hne)
        | w3 :: ws3 => exact absurd h1 (by simp [joinSpace])
      · refine Or.inr ⟨c, t ++ ' ' :: w.reverse, ?_, hc⟩
        show (w ++ ' ' :: joinSpace (w2 :: ws'')).reverse = _
        rw [List.reverse_append]
        simp only [List.reverse_cons]
        rw [hct]
        simp

/-! ### Lowercasing lemmas and idempotence of `normalize_name` (C9) -/

theorem toLowerC_space : toLowerC ' ' = ' ' := by decide

theorem toLowerC_idem (c : Char) : toLowerC (toLowerC c) = toLowerC c := by
  unfold toLowerC
  cases hf : lowerPairs.find? (fun p => p.1 == c) with
  | none => simp [hf]
  | some pr =>
    have hmem : pr ∈ lowerPairs := List.mem_of_find?_eq_some hf
    have hnone : ∀ q ∈ lowerPairs, lowerPairs.find? (fun p => p.1 == q.2) = none := by decide
    simp [hf, hnone pr hmem]

theorem map_id_of_fixed {f : Char → Char} {l : List Char} (h : ∀ c ∈ l, f c = c) :
    l.map f = l := by
  induction l with
  | nil => rfl
  | cons a t ih => simp [h a (by simp), ih (fun c hc => h c (by simp [hc]))]

theorem dropWhile_eq_self_of_head {p : Char → Bool} {l : List Char}
    (h : l = [] ∨ ∃ c t, l = c :: t ∧ p c = false) :
    l.dropWhile p = l := by
  rcases h with h | ⟨c, t, rfl, hc⟩
  · subst h; rfl
  · simp [List.dropWhile_cons, hc]

/-- C9 core: the word list of a normalised string splits back to itself and is
fixed by stripping and lowercasing. -/
theorem normalize_name_idem_data (s : String) :
    (normalize_name (normalize_name s)).data = (normalize_name s).data := by
  have hsp : pySpace ' ' = true := by decide
  set ws := pySplit ((pyStrip s.data).map toLowerC) with hws
  have hwords : ∀ w ∈ ws, w ≠ [] ∧ ∀ c ∈ w, pySpace c = false := by
    intro w hw
    exact splitRuns_words w hw
  have hlower : ∀ w ∈ ws, ∀ c ∈ w, toLowerC c = c := by
    intro w hw c hc
    have hcm : c ∈ (pyStrip s.data).map toLowerC := splitRuns_chars w hw c hc
    obtain ⟨d, _, rfl⟩ := List.mem_map.mp hcm
    exact toLowerC_idem d
  set j := joinSpace ws with hj
  have hstrip : pyStrip j = j := by
    have h1 : j.dropWhile pySpace = j := by
      apply dropWhile_eq_self_of_head
      rcases joinSpace_head hwords with h | ⟨c, t, hct, hc⟩
      · exact Or.inl h
      · exact Or.inr ⟨c, t, hct, hc⟩
    have h2 : j.reverse.dropWhile pySpace = j.reverse := by
      apply dropWhile_eq_self_of_head
      rcases joinSpace_getLast hwords with h | ⟨c, t, hct, hc⟩
      · exact Or.inl (by simp [hj, h])
      · exact Or.inr ⟨c, t, hct, hc⟩
    unfold pyStrip
    rw [h1, h2, List.reverse_reverse]
  have hmap : j.map toLowerC = j := by
    apply map_id_of_fixed
    intro c hc
    rcases joinSpace_chars c hc with h | ⟨w, hw, hcw⟩
    · subst h; exact toLowerC_space
    · exact hlower w hw c hcw
  have hsplit : pySplit j = ws := splitRuns_joinSpace hsp hwords
  show joinSpace (pySplit ((pyStrip j).map toLowerC)) = j
  rw [hstrip, hmap, hsplit]

/-- C9.  `normalize_name` (trim, lowercase, collapse internal whitespace) is
idempotent: `normalize(normalize(x)) = normalize(x)` for every string `x`. -/
theorem normalize_name_idempotent (s : String) :
    normalize_name (normalize_name s) = normalize_name s :=
  congrArg String.mk (normalize_name_idem_data s)

/-! ### C1: rank-preference statement selection -/

/-- C1.  `pick_best_statements` returns exactly the preferred-rank statements
when any exist; otherwise exactly the normal-rank statements when any exist;
otherwise all statements whose rank is not deprecated — so a list of only
deprecated statements yields the empty result. -/
theorem pick_best_statements_spec (l : List Statement) :
    ((∃ s ∈ l, s.rank = some "preferred") →
      pick_best_statements l = l.filter (fun s => s.rank == some "preferred")) ∧
    ((∀ s ∈ l, s.rank ≠ some "preferred") → (∃ s ∈ l, s.rank = some "normal") →
      pick_best_statements l = l.filter (fun s => s.rank == some "normal")) ∧
    ((∀ s ∈ l, s.rank ≠ some "preferred" ∧ s.rank ≠ some "normal") →
      pick_best_statements l = l.filter (fun s => !(s.rank == some "deprecated"))) ∧
    ((∀ s ∈ l, s.rank = some "deprecated") → pick_best_statements l = []) := by
  refine ⟨?_, ?_, ?_, ?_⟩
  · rintro ⟨s, hs, hr⟩
    have hne : l.filter (fun s => s.rank == some "preferred") ≠ [] :=
      List.ne_nil_of_mem (List.mem_filter.mpr ⟨hs, by simp [hr]⟩)
    simp only [pick_best_statements]
    rw [if_pos hne]
  · intro hnp hn
    have hpe : l.filter (fun s => s.rank == some "preferred") = [] :=
      List.filter_eq_nil_iff.mpr (fun s hs => by simp [hnp s hs])
    obtain ⟨s, hs, hr⟩ := hn
    have hne : l.filter (fun s => s.rank == some "normal") ≠ [] :=
      List.ne_nil_of_mem (List.mem_filter.mpr ⟨hs, by simp [hr]⟩)
    simp only [pick_best_statements]
    rw [if_neg (by simp [hpe]), if_pos hne]
  · intro h
    have hpe : l.filter (fun s => s.rank == some "preferred") = [] :=
      List.filter_eq_nil_iff.mpr (fun s hs => by simp [(h s hs).1])
    have hne : l.filter (fun s => s.rank == some "normal") = [] :=
      List.filter_eq_nil_iff.mpr (fun s hs => by simp [(h s hs).2])
    simp only [pick_best_statements]
    rw [if_neg (by simp [hpe]), if_neg (by simp [hne])]
  · intro h
    have hpe : l.filter (fun s => s.rank == some "preferred") = [] :=
      List.filter_eq_nil_iff.mpr (fun s hs => by simp [h s hs])
    have hne : l.filter (fun s => s.rank == some "normal") = [] :=
      List.filter_eq_nil_iff.mpr (fun s hs => by simp [h s hs])
    have hde : l.filter (fun s => !(s.rank == some "deprecated")) = [] :=
      List.filter_eq_nil_iff.mpr (fun s hs => by simp [h s hs])
    simp only [pick_best_statements]
    rw [if_neg (by simp [hpe]), if_neg (by simp [hne]), hde]

/-- C1 witness: on ranks `{normal, preferred, deprecated}` the preferred
statement is selected. -/
theorem pick_best_statements_spec_witness :
    pick_best_statements
        [⟨some "normal", none⟩, ⟨some "preferred", none⟩, ⟨some "deprecated", none⟩] =
      List.filter (fun s => s.rank == some "preferred")
        [⟨some "normal", none⟩, ⟨some "preferred", none⟩, ⟨some "deprecated", none⟩] :=
  (pick_best_statements_spec _).1 ⟨⟨some "preferred", none⟩, by decide, by decide⟩

/-! ### C3: unit converters -/

/-- C3.  Each unit converter is total over its closed set of recognized unit
identifiers and yields no value for any other identifier: mass to kg is the
identity for kg, `/1000` for grams, `/1000000` for milligrams, `*1000` for
tonnes, `*0.45359237` for pounds; time to days is the identity for days, `*7`
for weeks, `*30.4375` for months, `*365.25` for years; time to years is the
identity for years and otherwise goes through days `/365.25`; speed to mph is
the identity for mph and a fixed constant for km/h, m/s and knots.  In
particular 1000 g is exactly 1 kg, 1 year exactly 365.25 days, and 1 knot
exactly 1.15077944802354 mph. -/
theorem unit_conversion_spec :
    (∀ v : ℚ,
      convert_mass_to_kg v (some Q_KG) = some v ∧
      convert_mass_to_kg v (some Q_G) = some (v / 1000) ∧
      convert_mass_to_kg v (some Q_MG) = some (v / 1000000) ∧
      convert_mass_to_kg v (some Q_TONNE) = some (v * 1000) ∧
      convert_mass_to_kg v (some Q_LB) = some (v * 0.45359237) ∧
      convert_time_to_days v (some Q_DAY) = some v ∧
      convert_time_to_days v (some Q_WEEK) = some (v * 7) ∧
      convert_time_to_days v (some Q_MONTH) = some (v * 30.4375) ∧
      convert_time_to_days v (some Q_YEAR) = some (v * 365.25) ∧
      convert_time_to_years v (some Q_YEAR) = some v ∧
      convert_speed_to_mph v (some Q_MPH) = some v ∧
      convert_speed_to_mph v (some Q_KMH) = some (v * 0.621371192237334) ∧
      convert_speed_to_mph v (some Q_MPS) = some (v * 2.2369362920544) ∧
      convert_speed_to_mph v (some Q_KNOT) = some (v * 1.15077944802354)) ∧
    (∀ (v : ℚ) (u : Option String),
      u ∉ [some Q_KG, some Q_G, some Q_MG, some Q_TONNE, some Q_LB] →
      convert_mass_to_kg v u = none) ∧
    (∀ (v : ℚ) (u : Option String),
      u ∉ [some Q_DAY, some Q_WEEK, some Q_MONTH, some Q_YEAR] →
      convert_time_to_days v u = none) ∧
    (∀ (v : ℚ) (u : Option String), u ≠ some Q_YEAR →
      convert_time_to_years v u =
        (convert_time_to_days v u).map (fun days => days / 365.25)) ∧
    (∀ (v : ℚ) (u : Option String),
      u ∉ [some Q_MPH, some Q_KMH, some Q_MPS, some Q_KNOT] →
      convert_speed_to_mph v u = none) ∧
    convert_mass_to_kg 1000 (some Q_G) = some 1 ∧
    convert_time_to_days 1 (some Q_YEAR) = some 365.25 ∧
    convert_speed_to_mph 1 (some Q_KNOT) = some 1.15077944802354 := by
  refine ⟨?_, ?_, ?_, ?_, ?_, ?_, ?_, ?_⟩
  · intro v
    refine ⟨?_, ?_, ?_, ?_, ?_, ?_, ?_, ?_, ?_, ?_, ?_, ?_, ?_, ?_⟩ <;>
      simp [convert_mass_to_kg, convert_time_to_days, convert_time_to_years,
        convert_speed_to_mph, Q_KG, Q_G, Q_MG, Q_TONNE, Q_LB, Q_DAY, Q_WEEK,
        Q_MONTH, Q_YEAR, Q_MPH, Q_KMH, Q_MPS, Q_KNOT, LB_TO_KG, KMH_TO_MPH,
        MPS_TO_MPH, KNOT_TO_MPH]
  · intro v u hu
    simp only [convert_mass_to_kg]
    rw [if_neg (fun h => hu (by simp [h])), if_neg (fun h => hu (by simp [h])),
      if_neg (fun h => hu (by simp [h])), if_neg (fun h => hu (by simp [h])),
      if_neg (fun h => hu (by simp [h]))]
  · intro v u hu
    simp only [convert_time_to_days]
    rw [if_neg (fun h => hu (by simp [h])), if_neg (fun h => hu (by simp [h])),
      if_neg (fun h => hu (by simp [h])), if_neg (fun h => hu (by simp [h]))]
  · intro v u hu
    simp only [convert_time_to_years, if_neg hu]
    cases convert_time_to_days v u <;> simp
  · intro v u hu
    simp only [convert_speed_to_mph]
    rw [if_neg (fun h => hu (by simp [h])), if_neg (fun h => hu (by simp [h])),
      if_neg (fun h => hu (by simp [h])), if_neg (fun h => hu (by simp [h]))]
  · simp [convert_mass_to_kg, Q_G, Q_KG, show (1000 : ℚ) / 1000 = 1 by norm_num]
  · simp [convert_time_to_days, Q_YEAR, Q_DAY, Q_WEEK, Q_MONTH, one_mul]
  · simp [convert_speed_to_mph, Q_KNOT, Q_MPH, Q_KMH, Q_MPS, KNOT_TO_MPH, one_mul]

/-- C3 witness: an unrecognized unit identifier converts to nothing, and a
non-year time unit goes through the days conversion. -/
theorem unit_conversion_spec_witness :
    convert_mass_to_kg 3 (some "Q0") = none ∧
    convert_time_to_years 2 (some "Q573") =
      (convert_time_to_days 2 (some "Q573")).map (fun days => days / 365.25) :=
  ⟨unit_conversion_spec.2.1 3 (some "Q0") (by decide),
   unit_conversion_spec.2.2.2.1 2 (some "Q573") (by decide)⟩

/-! ### C2: max aggregation of converted claims -/

theorem foldl_max_spec (xs : List ℚ) : ∀ x : ℚ,
    x ≤ xs.foldl max x ∧ (∀ c ∈ xs, c ≤ xs.foldl max x) ∧
    (xs.foldl max x = x ∨ xs.foldl max x ∈ xs) := by
  induction xs with
  | nil => intro x; exact ⟨le_refl x, by simp, Or.inl rfl⟩
  | cons c t ih =>
    intro x
    have h := ih (max x c)
    refine ⟨le_trans (le_max_left x c) h.1, ?_, ?_⟩
    · intro d hd
      rcases List.mem_cons.mp hd with rfl | hd
      · exact le_trans (le_max_right x d) h.1
      · exact h.2.1 d hd
    · rcases h.2.2 with heq | hmem
      · rcases max_choice x c with hx | hc
        · exact Or.inl (by rw [List.foldl_cons, heq, hx])
        · exact Or.inr (by rw [List.foldl_cons, heq, hc]; simp)
      · exact Or.inr (by rw [List.foldl_cons]; exact List.mem_cons_of_mem c hmem)

theorem litter_foldl_some (l : List (ℚ × Option String)) : ∀ b : ℚ,
    ∃ m, l.foldl litterStep (some b) = some m ∧ (m = b ∨ m ∈ litterVals l) ∧
      b ≤ m ∧ ∀ v ∈ litterVals l, v ≤ m := by
  induction l with
  | nil => intro b; exact ⟨b, rfl, Or.inl rfl, le_refl b, by simp [litterVals]⟩
  | cons p t ih =>
    intro b
    cases hp : p.2 with
    | some u =>
      obtain ⟨m, hm, hmem, hle, hub⟩ := ih b
      refine ⟨m, ?_, ?_, hle, ?_⟩
      · rw [List.foldl_cons]
        have : litterStep (some b) p = some b := by simp [litterStep, hp]
        rw [this, hm]
      · simpa [litterVals, List.filterMap_cons, hp] using hmem
      · simpa [litterVals, List.filterMap_cons, hp] using hub
    | none =>
      obtain ⟨m, hm, hmem, hle, hub⟩ := ih (max b p.1)
      have hstep : litterStep (some b) p = some (max b p.1) := by simp [litterStep, hp]
      have hvals : litterVals (p :: t) = p.1 :: litterVals t := by
        simp [litterVals, List.filterMap_cons, hp]
      refine ⟨m, by rw [List.foldl_cons, hstep, hm], ?_, ?_, ?_⟩
      · rcases hmem with rfl | hmem
        · rcases max_choice b p.1 with hx | hx
          · exact Or.inl hx
          · exact Or.inr (by rw [hvals, hx]; simp)
        · exact Or.inr (by rw [hvals]; exact List.mem_cons_of_mem _ hmem)
      · exact le_trans (le_max_left b p.1) hle
      · intro v hv
        rw [hvals] at hv
        rcases List.mem_cons.mp hv with heq | hv
        · rw [heq]
          exact le_trans (le_max_right b p.1) hle
        · exact hub v hv

theorem litter_foldl_none (l : List (ℚ × Option String)) :
    (litterVals l = [] → l.foldl litterStep none = none) ∧
    (litterVals l ≠ [] → ∃ m, l.foldl litterStep none = some m ∧
      m ∈ litterVals l ∧ ∀ v ∈ litterVals l, v ≤ m) := by
  induction l with
  | nil => exact ⟨fun _ => rfl, fun h => absurd rfl h⟩
  | cons p t ih =>
    cases hp : p.2 with
    | some u =>
      have hstep : litterStep none p = none := by simp [litterStep, hp]
      have hvals : litterVals (p :: t) = litterVals t := by
        simp [litterVals, List.filterMap_cons, hp]
      refine ⟨?_, ?_⟩
      · intro h
        rw [List.foldl_cons, hstep]
        exact ih.1 (by rwa [hvals] at h)
      · intro h
        rw [hvals] at h
        obtain ⟨m, hm, hmem, hub⟩ := ih.2 h
        exact ⟨m, by rw [List.foldl_cons, hstep]; exact hm, by rwa [hvals],
          by rwa [hvals]⟩
    | none =>
      have hstep : litterStep none p = some p.1 := by simp [litterStep, hp]
      have hvals : litterVals (p :: t) = p.1 :: litterVals t := by
        simp [litterVals, List.filterMap_cons, hp]
      refine ⟨?_, ?_⟩
      · intro h
        rw [hvals] at h
        cases h
      · intro _
        obtain ⟨m, hm, hmem, hle, hub⟩ := litter_foldl_some t p.1
        refine ⟨m, by rw [List.foldl_cons, hstep]; exact hm, ?_, ?_⟩
        · rw [hvals]
          rcases hmem with rfl | hmem
          · simp
          · exact List.mem_cons_of_mem _ hmem
        · intro v hv
          rw [hvals] at hv
          rcases List.mem_cons.mp hv with rfl | hv
          · exact hle
          · exact hub v hv

/-- C2.  For every trait, when at least one authoritative statement converts
to the canonical unit the aggregate is the maximum of all converted values
(e.g. mass claims of 5 kg and 11000 g aggregate to 11 kg); when none converts
the trait is absent rather than zero; and litter size considers exactly the
statements with no unit, excluding any statement carrying a unit identifier. -/
theorem trait_aggregation_spec :
    (∀ sts : List Statement,
      ((extract_quantity_claims sts).filterMap (fun p => convert_mass_to_kg p.1 p.2) = [] →
        best_mass_kg sts = none) ∧
      ((extract_quantity_claims sts).filterMap (fun p => convert_mass_to_kg p.1 p.2) ≠ [] →
        ∃ m, best_mass_kg sts = some m ∧
          m ∈ (extract_quantity_claims sts).filterMap (fun p => convert_mass_to_kg p.1 p.2) ∧
          ∀ c ∈ (extract_quantity_claims sts).filterMap (fun p => convert_mass_to_kg p.1 p.2),
            c ≤ m)) ∧
    (∀ sts : List Statement,
      ((extract_quantity_claims sts).filterMap (fun p => convert_speed_to_mph p.1 p.2) = [] →
        best_speed_mph sts = none) ∧
      ((extract_quantity_claims sts).filterMap (fun p => convert_speed_to_mph p.1 p.2) ≠ [] →
        ∃ m, best_speed_mph sts = some m ∧
          m ∈ (extract_quantity_claims sts).filterMap (fun p => convert_speed_to_mph p.1 p.2) ∧
          ∀ c ∈ (extract_quantity_claims sts).filterMap (fun p => convert_speed_to_mph p.1 p.2),
            c ≤ m)) ∧
    (∀ sts : List Statement,
      (litterVals (extract_quantity_claims sts) = [] → best_litter_size sts = none) ∧
      (litterVals (extract_quantity_claims sts) ≠ [] →
        ∃ m, best_litter_size sts = some m ∧ m ∈ litterVals (extract_quantity_claims sts) ∧
          ∀ v ∈ litterVals (extract_quantity_claims sts), v ≤ m)) ∧
    best_mass_kg
        [⟨some "normal", some (5, some Q_KG)⟩, ⟨some "normal", some (11000, some Q_G)⟩] =
      some 11 := by
  refine ⟨?_, ?_, ?_, ?_⟩
  · intro sts
    constructor
    · intro h
      simp only [best_mass_kg, h]
    · intro h
      match hc : (extract_quantity_claims sts).filterMap (fun p => convert_mass_to_kg p.1 p.2) with
      | [] => exact absurd hc h
      | x :: xs =>
        obtain ⟨h1, h2, h3⟩ := foldl_max_spec xs x
        refine ⟨xs.foldl max x, by simp only [best_mass_kg, hc], ?_, ?_⟩
        · rcases h3 with heq | hmem
          · rw [hc, heq]; simp
          · rw [hc]; exact List.mem_cons_of_mem x hmem
        · intro c hcm
          rw [hc] at hcm
          rcases List.mem_cons.mp hcm with rfl | hcm
          · exact h1
          · exact h2 c hcm
  · intro sts
    constructor
    · intro h
      simp only [best_speed_mph, h]
    · intro h
      match hc : (extract_quantity_claims sts).filterMap (fun p => convert_speed_to_mph p.1 p.2) with
      | [] => exact absurd hc h
      | x :: xs =>
        obtain ⟨h1, h2, h3⟩ := foldl_max_spec xs x
        refine ⟨xs.foldl max x, by simp only [best_speed_mph, hc], ?_, ?_⟩
        · rcases h3 with heq | hmem
          · rw [hc, heq]; simp
          · rw [hc]; exact List.mem_cons_of_mem x hmem
        · intro c hcm
          rw [hc] at hcm
          rcases List.mem_cons.mp hcm with rfl | hcm
          · exact h1
          · exact h2 c hcm
  · intro sts
    exact ⟨fun h => (litter_foldl_none _).1 h, fun h => (litter_foldl_none _).2 h⟩
  · have h1 : (11000 : ℚ) / 1000 = 11 := by norm_num
    have h2 : max (5 : ℚ) 11 = 11 := max_eq_right (by norm_num)
    simp [best_mass_kg, extract_quantity_claims, pick_best_statements,
      convert_mass_to_kg, Q_KG, Q_G, Q_MG, Q_TONNE, Q_LB, h1, h2]

/-- C2 witness: no convertible claim means an absent trait, and a unitless
litter claim list aggregates to its maximum. -/
theorem trait_aggregation_spec_witness :
    best_mass_kg [] = none ∧
    (∃ m, best_litter_size [⟨some "normal", some (3, none)⟩] = some m ∧
      m ∈ litterVals (extract_quantity_claims [⟨some "normal", some (3, none)⟩]) ∧
      ∀ v ∈ litterVals (extract_quantity_claims [⟨some "normal", some (3, none)⟩]), v ≤ m) :=
  ⟨(trait_aggregation_spec.1 []).1 rfl,
   (trait_aggregation_spec.2.2.1 [⟨some "normal", some (3, none)⟩]).2
     (by simp [extract_quantity_claims, pick_best_statements, litterVals])⟩

/-! ### C4: cross-source name matching and index construction -/

theorem alistGet_append_single {α : Type} (idx : List (String × α)) (k0 : String)
    (v : α) (k : String) :
    alistGet? (idx ++ [(k0, v)]) k =
      match alistGet? idx k with
      | some w => some w
      | none => if k0 == k then some v else none := by
  simp only [alistGet?, List.find?_append]
  cases hf : List.find? (fun p => p.1 == k) idx with
  | some w => simp [Option.or]
  | none =>
    by_cases hk0 : k0 = k
    · simp [Option.or, List.find?, hk0]
    · have hb : (k0 == k) = false := by simp [hk0]
      simp [Option.or, List.find?, hk0, hb]

theorem load_pantheria_aux (rows : List Row) : ∀ (idx : List (String × Row)) (k : String),
    k ≠ "" →
    alistGet? (rows.foldl insertPantheriaRow idx) k =
      match alistGet? idx k with
      | some v => some v
      | none => rows.find? (fun r => normalize_name (rowGetD r "MSW05_Binomial" "") == k) := by
  induction rows with
  | nil =>
    intro idx k _
    simp only [List.foldl_nil, List.find?]
    cases alistGet? idx k <;> rfl
  | cons row rest ih =>
    intro idx k hk
    rw [List.foldl_cons]
    by_cases hkey : normalize_name (rowGetD row "MSW05_Binomial" "") = ""
    · have hstep : insertPantheriaRow idx row = idx := by
        simp [insertPantheriaRow, hkey]
      rw [hstep, ih idx k hk]
      have hrow : (normalize_name (rowGetD row "MSW05_Binomial" "") == k) = false := by
        simp [hkey]
        exact fun h => hk h.symm
      cases hg : alistGet? idx k <;> simp [List.find?_cons, hrow]
    · cases hget : alistGet? idx (normalize_name (rowGetD row "MSW05_Binomial" "")) with
      | some w =>
        have hstep : insertPantheriaRow idx row = idx := by
          simp [insertPantheriaRow, hkey, hget]
        rw [hstep, ih idx k hk]
        cases hg : alistGet? idx k with
        | some v => rfl
        | none =>
          have hrow : (normalize_name (rowGetD row "MSW05_Binomial" "") == k) = false := by
            by_cases hkk : normalize_name (rowGetD row "MSW05_Binomial" "") = k
            · rw [hkk] at hget
              rw [hget] at hg
              cases hg
            · simp [hkk]
          simp [List.find?_cons, hrow]
      | none =>
        have hstep : insertPantheriaRow idx row =
            idx ++ [(normalize_name (rowGetD row "MSW05_Binomial" ""), row)] := by
          simp [insertPantheriaRow, hkey, hget]
        rw [hstep, ih _ k hk, alistGet_append_single]
        cases hg : alistGet? idx k with
        | some v => rfl
        | none =>
          by_cases hkk : normalize_name (rowGetD row "MSW05_Binomial" "") = k
          · simp [List.find?_cons, hkk]
          · have hrow : (normalize_name (rowGetD row "MSW05_Binomial" "") == k) = false := by
              simp [hkk]
            simp [List.find?_cons, hrow, hkk]

theorem load_pantheria_empty_key (rows : List Row) :
    ∀ idx : List (String × Row),
    alistGet? (rows.foldl insertPantheriaRow idx) "" = alistGet? idx "" := by
  induction rows with
  | nil => intro idx; rfl
  | cons row rest ih =>
    intro idx
    rw [List.foldl_cons, ih]
    by_cases hkey : normalize_name (rowGetD row "MSW05_Binomial" "") = ""
    · simp [insertPantheriaRow, hkey]
    · cases hget : alistGet? idx (normalize_name (rowGetD row "MSW05_Binomial" "")) with
      | some w => simp [insertPantheriaRow, hkey, hget]
      | none =>
        have hstep : insertPantheriaRow idx row =
            idx ++ [(normalize_name (rowGetD row "MSW05_Binomial" ""), row)] := by
          simp [insertPantheriaRow, hkey, hget]
        rw [hstep, alistGet_append_single]
        have : (normalize_name (rowGetD row "MSW05_Binomial" "") == "") = false := by
          simp [hkey]
        cases hg : alistGet? idx "" <;> simp [this]

/-- C4.  Cross-source matching looks up the normalized name and, only on a
miss, retries exactly once with the binomial reduction (the first two
whitespace tokens joined by one space when there are at least two tokens,
otherwise the name unchanged); and at index-build time the first row seen for
a normalized key wins — later rows never overwrite an entry, and the empty
key is never inserted. -/
theorem pantheria_matching_spec :
    (∀ (idx : List (String × Row)) (raw : String) (r : Row),
      alistGet? idx (normalize_name raw) = some r → match_pantheria idx raw = some r) ∧
    (∀ (idx : List (String × Row)) (raw : String),
      alistGet? idx (normalize_name raw) = none →
      match_pantheria idx raw = alistGet? idx (to_binomial (normalize_name raw))) ∧
    (∀ (s : String) (p0 p1 : List Char) (rest : List (List Char)),
      pySplit s.data = p0 :: p1 :: rest → (to_binomial s).data = p0 ++ ' ' :: p1) ∧
    (∀ s : String, (pySplit s.data).length < 2 → to_binomial s = s) ∧
    (∀ (rows : List Row) (k : String), k ≠ "" →
      alistGet? (load_pantheria_index rows) k =
        rows.find? (fun r => normalize_name (rowGetD r "MSW05_Binomial" "") == k)) ∧
    (∀ rows : List Row, alistGet? (load_pantheria_index rows) "" = none) := by
  refine ⟨?_, ?_, ?_, ?_, ?_, ?_⟩
  · intro idx raw r h
    simp only [match_pantheria, h]
  · intro idx raw h
    simp only [match_pantheria, h]
  · intro s p0 p1 rest h
    simp only [to_binomial, h]
  · intro s h
    unfold to_binomial
    match hs : pySplit s.data with
    | [] => rfl
    | [p0] => rfl
    | p0 :: p1 :: rest =>
      rw [hs] at h
      simp only [List.length_cons] at h
      omega
  · intro rows k hk
    have h := load_pantheria_aux rows [] k hk
    simpa [load_pantheria_index, alistGet?] using h
  · intro rows
    have h := load_pantheria_empty_key rows []
    simpa [load_pantheria_index, alistGet?] using h

/-- C4 witness: a name that misses on its full normalized form is retried with
its binomial reduction, and a duplicate-key row does not overwrite the first. -/
theorem pantheria_matching_spec_witness :
    match_pantheria [("panthera leo", [("MSW05_Binomial", "Panthera leo")])]
        "Panthera leo persica" =
      alistGet? [("panthera leo", [("MSW05_Binomial", "Panthera leo")])]
        (to_binomial (normalize_name "Panthera leo persica")) ∧
    alistGet? (load_pantheria_index
        [[("MSW05_Binomial", "Canis lupus"), ("X", "first")],
         [("MSW05_Binomial", "Canis lupus"), ("X", "second")]]) "canis lupus" =
      List.find? (fun r => normalize_name (rowGetD r "MSW05_Binomial" "") == "canis lupus")
        [[("MSW05_Binomial", "Canis lupus"), ("X", "first")],
         [("MSW05_Binomial", "Canis lupus"), ("X", "second")]] := by
  constructor
  · apply pantheria_matching_spec.2.1
    simp [alistGet?, List.find?, normalize_name, pySplit, splitRuns, pyStrip,
      pySpace, toLowerC, lowerPairs, joinSpace, List.dropWhile, List.takeWhile]
  · exact pantheria_matching_spec.2.2.2.2.1 _ "canis lupus" (by simp)

/-! ### C5: sentinel filtering and the two-trait retention rule -/

theorem fill_foldl_count (prow : Row) (pairs : List (String × String)) :
    ∀ acc : Row × Nat,
    (pairs.foldl (fillStep prow) acc).2 =
      acc.2 + (pairs.filter
        (fun pair =>
          (convert_trait pair.1 (parse_pantheria_number (alistGet? prow pair.1))).isSome)).length := by
  induction pairs with
  | nil => intro acc; simp
  | cons pair rest ih =>
    intro acc
    rw [List.foldl_cons, List.filter_cons]
    cases hconv : convert_trait pair.1 (parse_pantheria_number (alistGet? prow pair.1)) with
    | some c =>
      simp [fillStep, hconv, ih]
      omega
    | none =>
      simp [fillStep, hconv, ih]

/-- C5.  A legacy numeric field that is `None`, empty, unparseable, or at most
`-999.0` contributes absence rather than a measurement; and a record matching
the legacy index is kept in the output exactly when at least two of the four
mapped trait columns receive a converted value. -/
theorem pantheria_fill_spec :
    parse_pantheria_number none = none ∧
    (∀ s : String, pyStrip s.data = [] → parse_pantheria_number (some s) = none) ∧
    (∀ s : String, pyStrip s.data ≠ [] → parseFloat? (pyStrip s.data) = none →
      parse_pantheria_number (some s) = none) ∧
    (∀ (s : String) (v : ℚ), parseFloat? (pyStrip s.data) = some v →
      v ≤ MISSING_SENTINEL → parse_pantheria_number (some s) = none) ∧
    (∀ (s : String) (v : ℚ), parse_pantheria_number (some s) = some v →
      MISSING_SENTINEL < v) ∧
    (∀ (idx : List (String × Row)) (row : Row),
      (∃ r', fill_row idx row = some r') ↔
        ∃ prow, match_pantheria idx (rowGetD row "scientific_name" "") = some prow ∧
          2 ≤ countFilled prow) ∧
    (∀ (idx : List (String × Row)) (rows : List Row),
      fill_and_filter_mammals idx rows = rows.filterMap (fill_row idx)) := by
  refine ⟨rfl, ?_, ?_, ?_, ?_, ?_, fun _ _ => rfl⟩
  · intro s h
    simp only [parse_pantheria_number]
    rw [if_pos h]
  · intro s hne h
    simp only [parse_pantheria_number]
    rw [if_neg hne, h]
  · intro s v hv hle
    simp only [parse_pantheria_number]
    by_cases hne : pyStrip s.data = []
    · rw [if_pos hne]
    · rw [if_neg hne, hv]
      simp [hle]
  · intro s v h
    simp only [parse_pantheria_number] at h
    by_cases hne : pyStrip s.data = []
    · rw [if_pos hne] at h; cases h
    · rw [if_neg hne] at h
      cases hp : parseFloat? (pyStrip s.data) with
      | none => rw [hp] at h; cases h
      | some w =>
        rw [hp] at h
        by_cases hle : w ≤ MISSING_SENTINEL
        · simp [hle] at h
        · simp [hle] at h
          rw [← h]
          exact lt_of_not_le hle
  · intro idx row
    constructor
    · rintro ⟨r', hr⟩
      unfold fill_row at hr
      cases hm : match_pantheria idx (rowGetD row "scientific_name" "") with
      | none => rw [hm] at hr; cases hr
      | some prow =>
        rw [hm] at hr
        dsimp only at hr
        refine ⟨prow, rfl, ?_⟩
        have hc := fill_foldl_count prow PANTHERIA_TO_TARGET (row, (0 : Nat))
        by_cases hlt : (PANTHERIA_TO_TARGET.foldl (fillStep prow) (row, (0 : Nat))).2 < 2
        · rw [if_pos hlt] at hr; cases hr
        · rw [hc] at hlt
          simp only [countFilled]
          omega
    · rintro ⟨prow, hm, hcount⟩
      unfold fill_row
      rw [hm]
      dsimp only
      have hc := fill_foldl_count prow PANTHERIA_TO_TARGET (row, (0 : Nat))
      have hge : ¬ (PANTHERIA_TO_TARGET.foldl (fillStep prow) (row, (0 : Nat))).2 < 2 := by
        rw [hc]
        simp only [countFilled] at hcount
        omega
      rw [if_neg hge]
      exact ⟨_, rfl⟩

/-- C5 witness: the sentinel field `-999` parses to absence, an unmatched row
is dropped, and the whole fill is the per-row filter-map. -/
theorem pantheria_fill_spec_witness :
    parse_pantheria_number (some "-999") = none ∧
    ((∃ r', fill_row [] [("scientific_name", "Panthera leo")] = some r') ↔
      ∃ prow, match_pantheria [] (rowGetD [("scientific_name", "Panthera leo")]
          "scientific_name" "") = some prow ∧ 2 ≤ countFilled prow) := by
  constructor
  · refine pantheria_fill_spec.2.2.2.1 "-999" (-999 : ℚ) ?_ ?_
    · simp [pyStrip, pySpace, parseFloat?, List.dropWhile, List.takeWhile, pyDigit,
        digitsToNat]
    · simp [MISSING_SENTINEL]
  · exact pantheria_fill_spec.2.2.2.2.2.1 [] [("scientific_name", "Panthera leo")]

/-! ### C6: audio candidate scoring and stable selection -/

theorem sortByScoreDesc_spec (f : String → ℤ) :
    ∀ l : List String, l ≠ [] →
    ∃ t l1 l2, (sortByScoreDesc f l).head? = some t ∧ l = l1 ++ t :: l2 ∧
      (∀ u ∈ l, f u ≤ f t) ∧ (∀ u ∈ l1, f u < f t) := by
  intro l
  induction l with
  | nil => intro h; exact absurd rfl h
  | cons x xs ih =>
    intro _
    cases hxs : xs with
    | nil =>
      refine ⟨x, [], [], ?_, by simp, ?_, by simp⟩
      · simp [sortByScoreDesc, insertByScoreDesc]
      · intro u hu
        rcases List.mem_singleton.mp hu with rfl
        exact le_refl _
    | cons y ys =>
      obtain ⟨t', l1', l2', hhead, hdecomp, hmax, hstrict⟩ := ih (by simp [hxs])
      rw [← hxs] at *
      cases hs : sortByScoreDesc f xs with
      | nil => rw [hs] at hhead; cases hhead
      | cons b rest =>
        rw [hs] at hhead
        have hb : b = t' := by simpa using hhead
        subst hb
        show ∃ t l1 l2, (insertByScoreDesc f x (sortByScoreDesc f xs)).head? = some t ∧ _
        rw [hs]
        by_cases hle : f b ≤ f x
        · refine ⟨x, [], xs, ?_, by simp, ?_, by simp⟩
          · simp [insertByScoreDesc, hle]
          · intro u hu
            rcases List.mem_cons.mp hu with rfl | hu
            · exact le_refl _
            · exact le_trans (hmax u hu) hle
        · refine ⟨b, x :: l1', l2', ?_, ?_, ?_, ?_⟩
          · simp [insertByScoreDesc, hle]
          · rw [hdecomp]
            simp
          · intro u hu
            rcases List.mem_cons.mp hu with rfl | hu
            · exact le_of_lt (lt_of_not_le hle)
            · exact hmax u hu
          · intro u hu
            rcases List.mem_cons.mp hu with rfl | hu
            · exact lt_of_not_le hle
            · exact hstrict u hu

/-- C6.  Among the candidates classified as audio, `best_audio_file_title`
returns a candidate of maximal score whose earlier audio candidates all score
strictly lower (stable tie-break, first seen wins); with no audio candidate
the result is the empty "no candidate found" marker.  Against title "Lion",
"Lion_roar.ogg" outscores "Lion_pronunciation.ogg". -/
theorem best_audio_selection_spec :
    (∀ (titles : List String) (wiki sci : String),
      titles.filter is_audio_filename = [] →
        best_audio_file_title titles wiki sci = "") ∧
    (∀ (titles : List String) (wiki sci : String),
      titles.filter is_audio_filename ≠ [] →
      ∃ t l1 l2, best_audio_file_title titles wiki sci = t ∧
        titles.filter is_audio_filename = l1 ++ t :: l2 ∧
        (∀ u ∈ titles.filter is_audio_filename,
          score_audio_candidate u wiki sci ≤ score_audio_candidate t wiki sci) ∧
        (∀ u ∈ l1, score_audio_candidate u wiki sci < score_audio_candidate t wiki sci)) ∧
    score_audio_candidate "Lion_pronunciation.ogg" "Lion" "" <
      score_audio_candidate "Lion_roar.ogg" "Lion" "" := by
  refine ⟨?_, ?_, ?_⟩
  · intro titles wiki sci h
    simp [best_audio_file_title, h, sortByScoreDesc]
  · intro titles wiki sci h
    obtain ⟨t, l1, l2, hhead, hdecomp, hmax, hstrict⟩ :=
      sortByScoreDesc_spec (fun u => score_audio_candidate u wiki sci)
        (titles.filter is_audio_filename) h
    refine ⟨t, l1, l2, ?_, hdecomp, hmax, hstrict⟩
    unfold best_audio_file_title
    cases hs : sortByScoreDesc (fun u => score_audio_candidate u wiki sci)
        (titles.filter is_audio_filename) with
    | nil => rw [hs] at hhead; cases hhead
    | cons b rest =>
      rw [hs] at hhead
      simpa using hhead
  · simp [score_audio_candidate, normalize_title, pyUnquote, pyStrip, pySpace,
      toLowerC, lowerPairs, leadsWith, tokenizeL, splitRuns, lowAlnum, interCard,
      isSubstringL, endsWithL, List.dropWhile, List.takeWhile, List.find?,
      PREFERRED_AUDIO_KEYWORDS, DEPRIORITIZE_AUDIO_KEYWORDS, List.dedup, List.range]
    decide

/-- C6 witness: on a page with a photo, a pronunciation clip and a roar clip,
the selected audio candidate attains the maximal score. -/
theorem best_audio_selection_spec_witness :
    ∃ t l1 l2,
      best_audio_file_title
          ["File:Lion_pronunciation.ogg", "File:Lionphoto.jpg", "File:Lion_roar.ogg"]
          "Lion" "Panthera leo" = t ∧
      List.filter is_audio_filename
          ["File:Lion_pronunciation.ogg", "File:Lionphoto.jpg", "File:Lion_roar.ogg"] =
        l1 ++ t :: l2 ∧
      (∀ u ∈ List.filter is_audio_filename
          ["File:Lion_pronunciation.ogg", "File:Lionphoto.jpg", "File:Lion_roar.ogg"],
        score_audio_candidate u "Lion" "Panthera leo" ≤
          score_audio_candidate t "Lion" "Panthera leo") ∧
      (∀ u ∈ l1, score_audio_candidate u "Lion" "Panthera leo" <
        score_audio_candidate t "Lion" "Panthera leo") :=
  best_audio_selection_spec.2.1
    ["File:Lion_pronunciation.ogg", "File:Lionphoto.jpg", "File:Lion_roar.ogg"]
    "Lion" "Panthera leo"
    (by simp [is_audio_filename, normalize_title, pyUnquote, pyStrip, pySpace,
      toLowerC, lowerPairs, leadsWith, endsWithL, AUDIO_EXTENSIONS,
      List.dropWhile, List.takeWhile, List.find?])

/-! ### C7: map-like lead images and the alternate-image scan -/

theorem find_image_fallback_exhaust (resolve : String → CommonsMeta) (primary : String) :
    ∀ alts : List String, (∀ alt ∈ alts, ¬ acceptableAlt resolve primary alt) →
    find_image_fallback resolve primary alts = none := by
  intro alts
  induction alts with
  | nil => intro _; rfl
  | cons alt rest ih =>
    intro h
    have hrest := ih (fun b hb => h b (by simp [hb]))
    by_cases h1 : alt = primary
    · simp [find_image_fallback, h1, hrest]
    · by_cases h2 : is_map_like_image_name_or_url (some alt) = true
      · simp [find_image_fallback, h1, h2, hrest]
      · cases hcond : (truthy (resolve alt).url && truthy (resolve alt).filePage &&
            !is_map_like_image_name_or_url (resolve alt).url) with
        | true =>
          exfalso
          apply h alt (by simp)
          simp only [Bool.and_eq_true, Bool.not_eq_true'] at hcond
          exact ⟨h1, by simpa using h2, hcond.1.1, hcond.1.2, hcond.2⟩
        | false =>
          simp only [find_image_fallback, if_neg h1, if_neg h2, hcond]
          simpa using hrest

theorem find_image_fallback_first (resolve : String → CommonsMeta) (primary : String) :
    ∀ (l1 : List String) (alt : String) (l2 : List String),
    acceptableAlt resolve primary alt → (∀ b ∈ l1, ¬ acceptableAlt resolve primary b) →
    find_image_fallback resolve primary (l1 ++ alt :: l2) = some (resolve alt) := by
  intro l1
  induction l1 with
  | nil =>
    intro alt l2 hok _
    obtain ⟨h1, h2, h3, h4, h5⟩ := hok
    have hcond : (truthy (resolve alt).url && truthy (resolve alt).filePage &&
        !is_map_like_image_name_or_url (resolve alt).url) = true := by
      simp [h3, h4, h5]
    simp only [List.nil_append, find_image_fallback]
    rw [if_neg h1,
      if_neg (show ¬(is_map_like_image_name_or_url (some alt) = true) by simp [h2]),
      if_pos hcond]
  | cons b l1' ih =>
    intro alt l2 hok hfail
    have hb := hfail b (by simp)
    have hrest := ih alt l2 hok (fun c hc => hfail c (by simp [hc]))
    show find_image_fallback resolve primary (b :: (l1' ++ alt :: l2)) = some (resolve alt)
    by_cases h1 : b = primary
    · simp [find_image_fallback, h1, hrest]
    · by_cases h2 : is_map_like_image_name_or_url (some b) = true
      · simp [find_image_fallback, h1, h2, hrest]
      · cases hcond : (truthy (resolve b).url && truthy (resolve b).filePage &&
            !is_map_like_image_name_or_url (resolve b).url) with
        | true =>
          exfalso
          apply hb
          simp only [Bool.and_eq_true, Bool.not_eq_true'] at hcond
          exact ⟨h1, by simpa using h2, hcond.1.1, hcond.1.2, hcond.2⟩
        | false =>
          simp only [find_image_fallback, if_neg h1, if_neg h2, hcond]
          simpa using hrest

/-- C7.  When the primary image's filename or resolved URL carries a
map-indicating token (matched as a whole tokenized word, not as a substring),
the resolver scans the other page image filenames once in order — skipping the
primary filename and map-like filenames — and selects the first alternate that
resolves to a truthy asset whose URL is not map-like; if every alternate
fails, the subject ends with no image and the map-only counter is bumped.  A
non-map-like primary is kept as is. -/
theorem image_fallback_spec :
    (∀ (resolve : String → CommonsMeta) (primary : String) (alts : List String),
      (∀ alt ∈ alts, ¬ acceptableAlt resolve primary alt) →
      find_image_fallback resolve primary alts = none) ∧
    (∀ (resolve : String → CommonsMeta) (primary : String)
      (l1 : List String) (alt : String) (l2 : List String),
      acceptableAlt resolve primary alt →
      (∀ b ∈ l1, ¬ acceptableAlt resolve primary b) →
      find_image_fallback resolve primary (l1 ++ alt :: l2) = some (resolve alt)) ∧
    (∀ (resolve : String → CommonsMeta) (filename : String) (primaryMeta : CommonsMeta)
      (page_images : List String),
      (is_map_like_image_name_or_url (some filename) ||
        is_map_like_image_name_or_url primaryMeta.url) = false →
      select_lead_image resolve filename primaryMeta page_images =
        (some primaryMeta, false)) ∧
    (∀ (resolve : String → CommonsMeta) (filename : String) (primaryMeta : CommonsMeta)
      (page_images : List String),
      (is_map_like_image_name_or_url (some filename) ||
        is_map_like_image_name_or_url primaryMeta.url) = true →
      (∀ alt ∈ page_images, ¬ acceptableAlt resolve filename alt) →
      select_lead_image resolve filename primaryMeta page_images = (none, true)) ∧
    (∀ (resolve : String → CommonsMeta) (filename : String) (primaryMeta : CommonsMeta)
      (page_images : List String) (m : CommonsMeta),
      (is_map_like_image_name_or_url (some filename) ||
        is_map_like_image_name_or_url primaryMeta.url) = true →
      find_image_fallback resolve filename page_images = some m →
      select_lead_image resolve filename primaryMeta page_images = (some m, false)) ∧
    is_map_like_image_name_or_url (some "Lion_distribution_map.png") = true ∧
    is_map_like_image_name_or_url (some "Remapped_photo.jpg") = false := by
  refine ⟨find_image_fallback_exhaust, find_image_fallback_first, ?_, ?_, ?_, ?_, ?_⟩
  · intro resolve filename primaryMeta page_images h
    simp [select_lead_image, h]
  · intro resolve filename primaryMeta page_images h hall
    simp [select_lead_image, h, find_image_fallback_exhaust resolve filename page_images hall]
  · intro resolve filename primaryMeta page_images m h hfind
    simp [select_lead_image, h, hfind]
  · simp [is_map_like_image_name_or_url, tokenizeL, splitRuns, lowAlnum, pyUnquote,
      toLowerC, lowerPairs, MAP_LIKE_IMAGE_KEYWORDS, List.dropWhile, List.takeWhile,
      List.find?]
  · simp [is_map_like_image_name_or_url, tokenizeL, splitRuns, lowAlnum, pyUnquote,
      toLowerC, lowerPairs, MAP_LIKE_IMAGE_KEYWORDS, List.dropWhile, List.takeWhile,
      List.find?]

/-- C7 witness: with a map-like primary (`Lion_distribution_map.png`) and one
resolving non-map alternate, the alternate's asset is selected, not the
primary's, with no counter increment. -/
theorem image_fallback_spec_witness :
    select_lead_image demoResolve "Lion_distribution_map.png"
        ⟨some "commons_page", some "upload_Lion_distribution_map.png", none, none⟩
        ["Lion_distribution_map.png", "Lion_range_map.png", "Lion_photo.jpg"] =
      (some ⟨some "commons_page", some "upload_Lion_photo.jpg", some "CC", some "A"⟩,
        false) := by
  have hmapeval : ∀ s : String, s ∈ ["Lion_distribution_map.png",
      "upload_Lion_distribution_map.png", "Lion_range_map.png"] →
      is_map_like_image_name_or_url (some s) = true := by
    intro s hs
    simp only [List.mem_cons, List.not_mem_nil, or_false] at hs
    rcases hs with hs | hs | hs <;>
      (subst hs
       simp [is_map_like_image_name_or_url, tokenizeL, splitRuns, lowAlnum,
         pyUnquote, toLowerC, lowerPairs, MAP_LIKE_IMAGE_KEYWORDS, List.dropWhile,
         List.takeWhile, List.find?])
  have hphoto : is_map_like_image_name_or_url (some "upload_Lion_photo.jpg") = false := by
    simp [is_map_like_image_name_or_url, tokenizeL, splitRuns, lowAlnum, pyUnquote,
      toLowerC, lowerPairs, MAP_LIKE_IMAGE_KEYWORDS, List.dropWhile, List.takeWhile,
      List.find?]
  have hphotoname : is_map_like_image_name_or_url (some "Lion_photo.jpg") = false := by
    simp [is_map_like_image_name_or_url, tokenizeL, splitRuns, lowAlnum, pyUnquote,
      toLowerC, lowerPairs, MAP_LIKE_IMAGE_KEYWORDS, List.dropWhile, List.takeWhile,
      List.find?]
  have hok : acceptableAlt demoResolve "Lion_distribution_map.png" "Lion_photo.jpg" := by
    refine ⟨by decide, hphotoname, by decide, by decide, ?_⟩
    simpa [demoResolve] using hphoto
  have hfail : ∀ b ∈ ["Lion_distribution_map.png", "Lion_range_map.png"],
      ¬ acceptableAlt demoResolve "Lion_distribution_map.png" b := by
    intro b hb hacc
    simp only [List.mem_cons, List.not_mem_nil, or_false] at hb
    rcases hb with hb | hb
    · exact hacc.1 hb
    · have h1 := hacc.2.1
      rw [hmapeval b (by simp [hb])] at h1
      cases h1
  have hfind := image_fallback_spec.2.1 demoResolve "Lion_distribution_map.png"
    ["Lion_distribution_map.png", "Lion_range_map.png"] "Lion_photo.jpg" [] hok hfail
  have hprim : (is_map_like_image_name_or_url (some "Lion_distribution_map.png") ||
      is_map_like_image_name_or_url
        (some "upload_Lion_distribution_map.png" : Option String)) = true := by
    rw [hmapeval "Lion_distribution_map.png" (by simp)]
    simp
  exact image_fallback_spec.2.2.2.2.1 demoResolve "Lion_distribution_map.png"
    ⟨some "commons_page", some "upload_Lion_distribution_map.png", none, none⟩
    ["Lion_distribution_map.png", "Lion_range_map.png", "Lion_photo.jpg"]
    ⟨some "commons_page", some "upload_Lion_photo.jpg", some "CC", some "A"⟩
    hprim (by simpa [demoResolve] using hfind)

/-! ### C10: the sound-column writer touches only its target column -/

theorem rowGet_rowSet_ne (k v c : String) (hc : c ≠ k) :
    ∀ r : Row, alistGet? (rowSet r k v) c = alistGet? r c := by
  intro r
  induction r with
  | nil =>
    have hk : (k == c) = false := by simp; exact fun h => hc h.symm
    simp [rowSet, alistGet?, List.find?, hk]
  | cons p rest ih =>
    by_cases hp : p.1 = k
    · have hpk : (p.1 == k) = true := by simp [hp]
      have hk : (k == c) = false := by simp; exact fun h => hc h.symm
      have hpc : (p.1 == c) = false := by
        simp [hp]
        exact fun h => hc h.symm
      simp [rowSet, hpk, alistGet?, List.find?, hk, hpc]
    · have hpk : (p.1 == k) = false := by simp [hp]
      cases hpc : (p.1 == c) with
      | true => simp [rowSet, hpk, alistGet?, List.find?, hpc]
      | false =>
        simp only [rowSet, hpk]
        simp only [alistGet?, List.find?, hpc]
        simpa [alistGet?] using ih

/-- C10.  `add_sound_column` writes exactly one output row per input row, in
input order, each produced by `add_sound_row`; every column other than the
target column keeps its value in every row; and the header keeps the original
column order, appending the target column only when it was absent. -/
theorem add_sound_column_frame :
    (∀ (getTitle : Row → String) (getSound : String → String → String)
      (column_name : String) (force_refresh : Bool) (row : Row) (c : String),
      c ≠ column_name →
      alistGet? (add_sound_row getTitle getSound column_name force_refresh row) c =
        alistGet? row c) ∧
    (∀ getTitle getSound column_name force_refresh (header : List String)
      (rows : List Row),
      (add_sound_column getTitle getSound column_name force_refresh header rows).2 =
        rows.map (add_sound_row getTitle getSound column_name force_refresh)) ∧
    (∀ getTitle getSound column_name force_refresh (header : List String)
      (rows : List Row) (i : Nat),
      (add_sound_column getTitle getSound column_name force_refresh header rows).2[i]? =
        rows[i]?.map (add_sound_row getTitle getSound column_name force_refresh)) ∧
    (∀ getTitle getSound column_name force_refresh (header : List String)
      (rows : List Row),
      column_name ∈ header →
      (add_sound_column getTitle getSound column_name force_refresh header rows).1 =
        header) ∧
    (∀ getTitle getSound column_name force_refresh (header : List String)
      (rows : List Row),
      column_name ∉ header →
      (add_sound_column getTitle getSound column_name force_refresh header rows).1 =
        header ++ [column_name]) := by
  refine ⟨?_, ?_, ?_, ?_, ?_⟩
  · intro getTitle getSound column_name force_refresh row c hc
    unfold add_sound_row
    by_cases h1 : (pyStrip (rowGetD row column_name "").data ≠ [] ∧ force_refresh = false)
    · rw [if_pos h1]
    · rw [if_neg h1]
      by_cases h2 : getTitle row = ""
      · rw [if_pos h2]
        exact rowGet_rowSet_ne column_name "" c hc row
      · rw [if_neg h2]
        exact rowGet_rowSet_ne column_name _ c hc row
  · intro _ _ _ _ _ _
    rfl
  · intro getTitle getSound column_name force_refresh header rows i
    show (rows.map (add_sound_row getTitle getSound column_name force_refresh))[i]? = _
    exact List.getElem?_map _ rows i
  · intro _ _ column_name _ header _ h
    simp [add_sound_column, h]
  · intro _ _ column_name _ header _ h
    simp [add_sound_column, h]

/-- C10 witness: with the target column absent, a non-target column keeps its
value and the header gains the target column at the end. -/
theorem add_sound_column_frame_witness :
    alistGet? (add_sound_row (fun _ => "") (fun _ _ => "") "sound_url" false
        [("common_name", "Lion")]) "common_name" =
      alistGet? [("common_name", "Lion")] "common_name" ∧
    (add_sound_column (fun _ => "") (fun _ _ => "") "sound_url" false
        ["common_name"] [[("common_name", "Lion")]]).1 = ["common_name"] ++ ["sound_url"] :=
  ⟨add_sound_column_frame.1 (fun _ => "") (fun _ _ => "") "sound_url" false
      [("common_name", "Lion")] "common_name" (by decide),
   add_sound_column_frame.2.2.2.2 (fun _ => "") (fun _ _ => "") "sound_url" false
      ["common_name"] [[("common_name", "Lion")]] (by decide)⟩

/-! ### C8: fixed-precision formatting and trimming -/

theorem head?_mem {l : List Char} {a : Char} (h : l.head? = some a) : a ∈ l := by
  cases l with
  | nil => cases h
  | cons b t =>
    simp only [List.head?_cons, Option.some.injEq] at h
    simp [h]

theorem mem_of_getLast? {l : List Char} {a : Char} (h : l.getLast? = some a) : a ∈ l := by
  rw [← List.reverse_reverse l, List.getLast?_reverse] at h
  have := head?_mem h
  rw [← List.reverse_reverse l]
  simpa using this

theorem natDigitsAux_digit (fuel : Nat) :
    ∀ (n : Nat), ∀ c ∈ natDigitsAux fuel n, ∃ k, k < 10 ∧ c = digitChar k := by
  induction fuel with
  | zero => intro n c hc; cases hc
  | succ f ih =>
    intro n c hc
    rw [natDigitsAux] at hc
    by_cases h : n < 10
    · rw [if_pos h] at hc
      rcases List.mem_singleton.mp hc with rfl
      exact ⟨n, h, rfl⟩
    · rw [if_neg h] at hc
      rcases List.mem_append.mp hc with hc | hc
      · exact ih (n / 10) c hc
      · rcases List.mem_singleton.mp hc with rfl
        exact ⟨n % 10, Nat.mod_lt n (by omega), rfl⟩

theorem natDigits_digit (n : Nat) : ∀ c ∈ natDigits n, ∃ k, k < 10 ∧ c = digitChar k :=
  natDigitsAux_digit (n + 1) n

theorem digitChar_ne : ∀ k, k < 10 → digitChar k ≠ '.' ∧ digitChar k ≠ '-' := by decide

theorem natDigits_no_dot (n : Nat) : '.' ∉ natDigits n := by
  intro h
  obtain ⟨k, hk, hc⟩ := natDigits_digit n '.' h
  exact (digitChar_ne k hk).1 hc.symm

theorem natDigits_ne_nil (n : Nat) : natDigits n ≠ [] := by
  rw [natDigits, natDigitsAux]
  by_cases h : n < 10 <;> simp [h]

theorem fmtFixed_sgn_no_dot (b : Bool) :
    '.' ∉ (if b = true then ['-'] else ([] : List Char)) := by
  cases b <;> simp

theorem fmtFixed_pos_shape (v : ℚ) (d : Nat) (hd : d ≠ 0) :
    fmtFixed v d =
      (if rne (v * 10 ^ d) < 0 then ['-'] else []) ++
        natDigits ((rne (v * 10 ^ d)).natAbs / 10 ^ d) ++
        '.' :: leftPadZeros d (natDigits ((rne (v * 10 ^ d)).natAbs % 10 ^ d)) := by
  simp only [fmtFixed, if_neg hd]

theorem fmtFixed_zero_shape (v : ℚ) :
    fmtFixed v 0 = (if rne (v * 10 ^ 0) < 0 then ['-'] else []) ++
      natDigits (rne (v * 10 ^ 0)).natAbs := by
  simp [fmtFixed]

theorem count_dot_sgn (n : ℤ) :
    (if n < 0 then ['-'] else ([] : List Char)).count '.' = 0 := by
  by_cases h : n < 0 <;> simp [h]

theorem count_dot_pad (d : Nat) (m : Nat) :
    (leftPadZeros d (natDigits m)).count '.' = 0 := by
  apply List.count_eq_zero.mpr
  intro h
  rcases List.mem_append.mp h with h | h
  · rcases List.eq_of_mem_replicate h
  · exact natDigits_no_dot m h

theorem count_dot_fmtFixed (v : ℚ) (d : Nat) : (fmtFixed v d).count '.' ≤ 1 := by
  by_cases hd : d = 0
  · subst hd
    rw [fmtFixed_zero_shape]
    rw [List.count_append]
    rw [count_dot_sgn, List.count_eq_zero.mpr (natDigits_no_dot _)]
    omega
  · rw [fmtFixed_pos_shape v d hd]
    rw [List.count_append, List.count_append, List.count_cons]
    rw [count_dot_sgn, List.count_eq_zero.mpr (natDigits_no_dot _), count_dot_pad]
    simp

theorem dot_not_mem_fmtFixed_zero (v : ℚ) : '.' ∉ fmtFixed v 0 := by
  rw [fmtFixed_zero_shape]
  intro h
  rcases List.mem_append.mp h with h | h
  · by_cases hn : rne (v * 10 ^ 0) < 0
    · rw [if_pos hn] at h
      simp at h
    · rw [if_neg hn] at h
      cases h
  · exact natDigits_no_dot _ h

theorem head?_dropWhile_false {p : Char → Bool} {l : List Char} {a : Char}
    (h : (l.dropWhile p).head? = some a) : p a = false := by
  cases hdw : l.dropWhile p with
  | nil => rw [hdw] at h; cases h
  | cons b t =>
    rw [hdw] at h
    simp only [List.head?_cons, Option.some.injEq] at h
    subst h
    exact head_dropWhile_false hdw

theorem rstripChar_getLast? (l : List Char) (c : Char) :
    (rstripChar l c).getLast? = (l.reverse.dropWhile (fun x => x == c)).head? := by
  unfold rstripChar
  rw [List.getLast?_reverse]

theorem rstripChar_reverse (l : List Char) (c : Char) :
    (rstripChar l c).reverse = l.reverse.dropWhile (fun x => x == c) := by
  unfold rstripChar
  rw [List.reverse_reverse]

/-- C8 (amended).  `format_number` renders the value rounded half-to-even to
the requested number of decimals and then trims: the result never ends in a
decimal point; when it still contains a decimal point it does not end in a
zero; a value whose rounding is divisible by `10^d` is rendered without any
decimal point; and an absent trait value converts to an absent cell. -/
theorem format_number_trim_spec :
    (∀ col : String, convert_trait col none = none) ∧
    (∀ (v : ℚ) (d : Nat), (format_number v d).data.getLast? ≠ some '.') ∧
    (∀ (v : ℚ) (d : Nat), '.' ∈ (format_number v d).data →
      (format_number v d).data.getLast? ≠ some '0') ∧
    (∀ (v : ℚ) (d : Nat), ((10 : ℤ) ^ d ∣ rne (v * 10 ^ d)) →
      '.' ∉ (format_number v d).data) := by
  have hdata : ∀ (v : ℚ) (d : Nat), '.' ∈ fmtFixed v d →
      (format_number v d).data = rstripChar (rstripChar (fmtFixed v d) '0') '.' := by
    intro v d h
    simp only [format_number, if_pos h]
  have hdata2 : ∀ (v : ℚ) (d : Nat), '.' ∉ fmtFixed v d →
      (format_number v d).data = fmtFixed v d := by
    intro v d h
    simp only [format_number, if_neg h]
  refine ⟨fun _ => rfl, ?_, ?_, ?_⟩
  · intro v d
    by_cases hdot : '.' ∈ fmtFixed v d
    · rw [hdata v d hdot, rstripChar_getLast?]
      cases hh : ((rstripChar (fmtFixed v d) '0').reverse.dropWhile
          (fun x => x == '.')).head? with
      | none => simp
      | some a =>
        have ha := head?_dropWhile_false (p := fun x => x == '.') hh
        simp only [ne_eq, Option.some.injEq]
        intro hcon
        rw [hcon] at ha
        simp at ha
    · rw [hdata2 v d hdot]
      intro hcon
      exact hdot (mem_of_getLast? hcon)
  · intro v d hmem
    by_cases hdot : '.' ∈ fmtFixed v d
    · rw [hdata v d hdot] at hmem ⊢
      have ht1 : (rstripChar (fmtFixed v d) '0').reverse =
          (fmtFixed v d).reverse.dropWhile (fun x => x == '0') :=
        rstripChar_reverse _ _
      cases hu : (fmtFixed v d).reverse.dropWhile (fun x => x == '0') with
      | nil =>
        exfalso
        have hrnil : rstripChar (rstripChar (fmtFixed v d) '0') '.' = [] := by
          have := rstripChar_reverse (rstripChar (fmtFixed v d) '0') '.'
          rw [ht1, hu] at this
          simpa using congrArg List.reverse this
        rw [hrnil] at hmem
        cases hmem
      | cons a u' =>
        have ha0 := head_dropWhile_false (p := fun x => x == '0') hu
        by_cases hadot : a = '.'
        · exfalso
          subst hadot
          have hcnt : ((fmtFixed v d).reverse.count '.') ≤ 1 := by
            rw [List.count_reverse]
            exact count_dot_fmtFixed v d
          have hsub : ((fmtFixed v d).reverse.dropWhile (fun x => x == '0')).Sublist
              (fmtFixed v d).reverse := List.dropWhile_sublist _
          have hcu : ('.' :: u').count '.' ≤ 1 := by
            rw [← hu]
            exact le_trans (hsub.count_le '.') hcnt
          have hu' : '.' ∉ u' := by
            rw [List.count_cons] at hcu
            simp at hcu
            exact List.count_eq_zero.mp (by omega)
          have hrrev : (rstripChar (rstripChar (fmtFixed v d) '0') '.').reverse =
              ('.' :: u').dropWhile (fun x => x == '.') := by
            rw [rstripChar_reverse, ht1, hu]
          have hdw : ('.' :: u').dropWhile (fun x => x == '.') =
              u'.dropWhile (fun x => x == '.') := by
            simp [List.dropWhile_cons]
          have hnd : '.' ∉ (rstripChar (rstripChar (fmtFixed v d) '0') '.') := by
            intro hx
            have hx2 : '.' ∈ (rstripChar (rstripChar (fmtFixed v d) '0') '.').reverse := by
              simpa using hx
            rw [hrrev, hdw] at hx2
            exact hu' ((List.dropWhile_sublist _).mem hx2)
          exact hnd hmem
        · have hrrev : (rstripChar (rstripChar (fmtFixed v d) '0') '.').reverse =
              a :: u' := by
            rw [rstripChar_reverse, ht1, hu]
            simp [List.dropWhile_cons, hadot]
          have hre : (rstripChar (rstripChar (fmtFixed v d) '0') '.') =
              (a :: u').reverse := by
            rw [← hrrev, List.reverse_reverse]
          rw [hre, List.getLast?_reverse]
          simp only [List.head?_cons, ne_eq, Option.some.injEq]
          intro hcon
          rw [hcon] at ha0
          simp at ha0
    · rw [hdata2 v d hdot] at hmem
      exact absurd hmem hdot
  · intro v d hdvd
    by_cases hd : d = 0
    · subst hd
      rw [hdata2 v 0 (dot_not_mem_fmtFixed_zero v)]
      exact dot_not_mem_fmtFixed_zero v
    · have hsh := fmtFixed_pos_shape v d hd
      have hmod : (rne (v * 10 ^ d)).natAbs % 10 ^ d = 0 := by
        have h1 : ((10 : ℤ) ^ d).natAbs ∣ (rne (v * 10 ^ d)).natAbs :=
          Int.natAbs_dvd_natAbs.mpr hdvd
        have h2 : ((10 : ℤ) ^ d).natAbs = 10 ^ d := by
          rw [Int.natAbs_pow]
          rfl
        rw [h2] at h1
        omega
      have hdig0 : natDigits ((rne (v * 10 ^ d)).natAbs % 10 ^ d) = ['0'] := by
        rw [hmod]
        decide
      have hzeros : ∀ a ∈ leftPadZeros d (natDigits ((rne (v * 10 ^ d)).natAbs % 10 ^ d)),
          a = '0' := by
        rw [hdig0]
        intro a ha
        rcases List.mem_append.mp ha with ha | ha
        · exact List.eq_of_mem_replicate ha
        · simpa using ha
      rw [hdata v d (by rw [hsh]; simp)]
      have hrev : (fmtFixed v d).reverse =
          (leftPadZeros d (natDigits ((rne (v * 10 ^ d)).natAbs % 10 ^ d))).reverse ++
            '.' :: ((natDigits ((rne (v * 10 ^ d)).natAbs / 10 ^ d)).reverse ++
              (if rne (v * 10 ^ d) < 0 then ['-'] else []).reverse) := by
        rw [hsh]
        simp
      have ht1rev : (fmtFixed v d).reverse.dropWhile (fun x => x == '0') =
          '.' :: ((natDigits ((rne (v * 10 ^ d)).natAbs / 10 ^ d)).reverse ++
            (if rne (v * 10 ^ d) < 0 then ['-'] else []).reverse) := by
        rw [hrev]
        rw [dropWhile_append_all _ (fun a ha => by
          have ham : a ∈ leftPadZeros d (natDigits ((rne (v * 10 ^ d)).natAbs % 10 ^ d)) := by
            simpa using ha
          simp [hzeros a ham])]
        simp [List.dropWhile_cons]
      have hrrev : (rstripChar (rstripChar (fmtFixed v d) '0') '.').reverse =
          ((natDigits ((rne (v * 10 ^ d)).natAbs / 10 ^ d)).reverse ++
            (if rne (v * 10 ^ d) < 0 then ['-'] else []).reverse).dropWhile
              (fun x => x == '.') := by
        rw [rstripChar_reverse, rstripChar_reverse, ht1rev]
        simp [List.dropWhile_cons]
      intro hx
      have hx2 : '.' ∈ (rstripChar (rstripChar (fmtFixed v d) '0') '.').reverse := by
        simpa using hx
      rw [hrrev] at hx2
      have hx3 := (List.dropWhile_sublist _).mem hx2
      rcases List.mem_append.mp hx3 with hx3 | hx3
      · exact natDigits_no_dot _ (by simpa using hx3)
      · have hsg : '.' ∈ (if rne (v * 10 ^ d) < 0 then ['-'] else ([] : List Char)) :=
          List.mem_reverse.mp hx3
        by_cases hneg : rne (v * 10 ^ d) < 0
        · rw [if_pos hneg] at hsg
          simp at hsg
        · rw [if_neg hneg] at hsg
          cases hsg

theorem rne_five_fourths : rne ((5/4 : ℚ) * 10 ^ 1) = 12 := by
  unfold rne
  rw [show ⌊((5/4 : ℚ) * 10 ^ 1)⌋ = 12 by norm_num]
  rw [if_neg (by norm_num), if_neg (by norm_num), if_pos (by decide)]

theorem format_number_five_fourths : format_number (5/4 : ℚ) 1 = "1.2" := by
  have hfmt : fmtFixed (5/4 : ℚ) 1 = ['1', '.', '2'] := by
    unfold fmtFixed
    rw [rne_five_fourths]
    decide
  unfold format_number
  rw [hfmt]
  decide

/-- C8 counterexample: a gestation field of value `5/4` is rendered as `"1.2"`
— the rounded, trimmed text — whereas the shortest exact decimal
representation of `5/4` is `"1.25"`; reading the rendered cell back with the
repository's own parser yields `6/5 ≠ 5/4`, so the written text is not an
exact representation of the value. -/
theorem format_number_counterexample :
    convert_trait "9-1_GestationLen_d" (some (5/4 : ℚ)) = some "1.2" ∧
    parse_pantheria_number (some "1.2") = some (6/5 : ℚ) ∧
    (6/5 : ℚ) ≠ 5/4 := by
  refine ⟨?_, ?_, by norm_num⟩
  · simp only [convert_trait]
    rw [if_neg (by decide)]
    simp [format_number_five_fourths]
  · have hps : pyStrip "1.2".data = ['1', '.', '2'] := by decide
    have hpf : parseFloat? ['1', '.', '2'] = some (6/5 : ℚ) := by
      simp [parseFloat?, pyDigit, digitsToNat, List.takeWhile, List.dropWhile]
      norm_num
    simp only [parse_pantheria_number, hps]
    rw [if_neg (by decide), hpf]
    dsimp only
    rw [if_neg (by norm_num [MISSING_SENTINEL])]

/-- C8 witness: a value whose rounding is a multiple of `10^d` renders with no
decimal point, and the trimmed rendering of `5/4` at one decimal neither ends
in a point nor, while containing a point, in a zero. -/
theorem format_number_trim_spec_witness :
    '.' ∉ (format_number 2 1).data ∧
    ('.' ∈ (format_number (5/4 : ℚ) 1).data →
      (format_number (5/4 : ℚ) 1).data.getLast? ≠ some '0') ∧
    convert_trait "unmapped_column" none = none := by
  refine ⟨?_, format_number_trim_spec.2.2.1 (5/4 : ℚ) 1,
    format_number_trim_spec.1 "unmapped_column"⟩
  apply format_number_trim_spec.2.2.2 2 1
  have h20 : rne ((2 : ℚ) * 10 ^ 1) = 20 := by
    unfold rne
    rw [show ⌊((2 : ℚ) * 10 ^ 1)⌋ = 20 by norm_num]
    rw [if_pos (by norm_num)]
  rw [h20]
  decide
